import Mathlib

/-!
Verification model of the package slot and metadata management engine of the
grimoire repository (`src/src-tauri/src`).  Rust strings are modelled as
`List Char`; the filesystem is modelled as an association list from paths
(directory plus file name) to abstract content identifiers, with each
directory carrying the numeric id of the device (filesystem/volume) it lives
on, so that cross-device renames can be modelled.  Machine integers (`u32`,
`u64`) are modelled as `Nat`; the modelled code never performs wrapping
arithmetic on them.  A Rust panic is modelled by an outer `Option` layer:
`none` is a panic.  Display-name derivation (`extract_mod_name`), file sizes
and timestamps are not modelled: no verified claim mentions them.
-/

namespace Grimoire

/-- UTF-8 width in bytes of a character, used to model Rust's byte-indexed
string slicing. -/
def utf8Width (c : Char) : Nat :=
  if c.toNat < 0x80 then 1
  else if c.toNat < 0x800 then 2
  else if c.toNat < 0x10000 then 3
  else 4

/-- Total UTF-8 byte length of a string. -/
def utf8Len (s : List Char) : Nat := (s.map utf8Width).sum

/-- Drop the first `n` bytes of a string; `none` when `n` does not fall on a
character boundary or lies past the end (a Rust slice panic). -/
def byteDrop : List Char → Nat → Option (List Char)
  | l, 0 => some l
  | [], _ + 1 => none
  | c :: rest, n + 1 =>
      if utf8Width c ≤ n + 1 then byteDrop rest (n + 1 - utf8Width c) else none

/-- Take the first `n` bytes of a string; `none` when `n` does not fall on a
character boundary. -/
def byteTake : List Char → Nat → Option (List Char)
  | _, 0 => some []
  | [], _ + 1 => none
  | c :: rest, n + 1 =>
      if utf8Width c ≤ n + 1 then (byteTake rest (n + 1 - utf8Width c)).map (c :: ·)
      else none

/-- Rust byte-indexed slice `s[a..b]`; `none` models the slice panic. -/
def byteSlice (s : List Char) (a b : Nat) : Option (List Char) :=
  if a ≤ b then (byteDrop s a).bind (fun t => byteTake t (b - a)) else none

/-- ASCII lower-casing of one character, modelling `str::to_lowercase`.  The
non-ASCII mappings of Unicode lower-casing leave every character appearing in
the verified statements unchanged. -/
def lowerChar (c : Char) : Char :=
  if 'A' ≤ c && c ≤ 'Z' then Char.ofNat (c.toNat + 32) else c

/-- Lower-casing of a whole string. -/
def strToLower (s : List Char) : List Char := s.map lowerChar

/-- Decimal digit characters of a natural number, most significant first
(fuel-based so that it reduces in the kernel). -/
def decimalDigitsAux : Nat → Nat → List Char
  | 0, _ => []
  | fuel + 1, n =>
      if n < 10 then [Char.ofNat (48 + n)]
      else decimalDigitsAux fuel (n / 10) ++ [Char.ofNat (48 + n % 10)]

/-- Decimal representation of a natural number. -/
def decimalDigits (n : Nat) : List Char := decimalDigitsAux (n + 1) n

/-- Zero-pad a digit string to width two, modelling the two-digit zero-padded
Rust format field used for pak numbers. -/
def pad2 (s : List Char) : List Char :=
  if s.length < 2 then List.replicate (2 - s.length) '0' ++ s else s

/-- Model of `str::parse::<u32>`: an optional leading plus sign, then one or
more ASCII digits, value below 2^32. -/
def parseU32 (s : List Char) : Option Nat :=
  let digits := match s with
    | '+' :: rest => rest
    | _ => s
  if digits ≠ [] ∧ digits.all (fun c => c.isDigit) then
    let v := digits.foldl (fun acc c => acc * 10 + (c.toNat - 48)) 0
    if v < 2 ^ 32 then some v else none
  else none

/-- Bool test that `pat` occurs somewhere in `s` (`str::contains`). -/
def containsSub (s pat : List Char) : Bool :=
  (List.range (s.length + 1)).any (fun i => pat.isPrefixOf (s.drop i))

/-- Byte index of the start of the last occurrence of `pat` in `s`, modelling
`str::rfind` (which returns a byte index). -/
def rfindSub (s pat : List Char) : Option Nat :=
  ((List.range (s.length + 1)).reverse.find? (fun i => pat.isPrefixOf (s.drop i))).map
    (fun i => utf8Len (s.take i))

/-- Repeatedly strip `pat` from the end of `s`, modelling
`str::trim_end_matches` (fuel-based so that it reduces in the kernel; each
strip removes at least one character, so `s.length + 1` fuel suffices). -/
def trimEndMatchesAux : Nat → List Char → List Char → List Char
  | 0, s, _ => s
  | fuel + 1, s, pat =>
      if !pat.isEmpty && pat.isSuffixOf s then
        trimEndMatchesAux fuel (s.take (s.length - pat.length)) pat
      else s

/-- Model of `str::trim_end_matches`. -/
def trimEndMatches (s pat : List Char) : List Char :=
  trimEndMatchesAux (s.length + 1) s pat

/-- Directory of the modelled filesystem; `device` is the id of the
filesystem/volume the directory lives on. -/
structure Dir where
  device : Nat
  path : String
deriving DecidableEq

/-- Path of a file: its directory and its file name. -/
structure FPath where
  dir : Dir
  name : List Char
deriving DecidableEq

/-- Filesystem model: an association list from paths to abstract content
identifiers.  The operations below keep at most one entry per path. -/
structure FS where
  files : List (FPath × Nat)
deriving DecidableEq

/-- First binding of `p` in an association list. -/
def lookupPath : List (FPath × Nat) → FPath → Option Nat
  | [], _ => none
  | e :: rest, p => if e.1 = p then some e.2 else lookupPath rest p

/-- Content of the file at `p`, if present. -/
def FS.read (fs : FS) (p : FPath) : Option Nat := lookupPath fs.files p

/-- Model of `Path::exists` for files. -/
def FS.existsFile (fs : FS) (p : FPath) : Bool := (fs.read p).isSome

/-- Remove every binding of `p`. -/
def FS.erase (fs : FS) (p : FPath) : FS :=
  ⟨fs.files.filter (fun e => !(e.1 == p))⟩

/-- Create or replace the file at `p` with content `c`. -/
def FS.write (fs : FS) (p : FPath) (c : Nat) : FS :=
  ⟨(fs.erase p).files ++ [(p, c)]⟩

/-- OS-level errors the modelled code distinguishes. -/
inductive IoErr
  | notFound
  | crossDevice
deriving DecidableEq

/-- Model of `std::fs::rename`: fails when the source is missing; fails with
`crossDevice` (raw OS error 18, EXDEV) when source and destination live on
different devices; otherwise moves the file, replacing any destination. -/
def FS.rename (fs : FS) (src dst : FPath) : Except IoErr FS :=
  match fs.read src with
  | none => .error .notFound
  | some c =>
      if src.dir.device = dst.dir.device then .ok ((fs.erase src).write dst c)
      else .error .crossDevice

/-- Model of `std::fs::copy`: duplicates the content, works across devices. -/
def FS.copy (fs : FS) (src dst : FPath) : Except IoErr FS :=
  match fs.read src with
  | none => .error .notFound
  | some c => .ok (fs.write dst c)

/-- Model of `std::fs::remove_file`. -/
def FS.removeFile (fs : FS) (p : FPath) : Except IoErr FS :=
  if fs.existsFile p then .ok (fs.erase p) else .error .notFound

/-- Files of `fs` lying in directory `d`, in `read_dir` order (which the model
takes to be the association-list order). -/
def FS.filesIn (fs : FS) (d : Dir) : List FPath :=
  (fs.files.filter (fun e => e.1.dir == d)).map (fun e => e.1)

/-- File names of `fs` in directory `d`. -/
def FS.namesIn (fs : FS) (d : Dir) : List (List Char) :=
  (fs.filesIn d).map (fun p => p.name)

/-- Model of `error.rs::AppError`; string payloads are carried as `List Char`
and the `ModNotFound` payload carries the looked-up id (see `generate_mod_id`
below). -/
inductive AppError
  | ioErr (e : IoErr)
  | deadlockNotFound
  | invalidDeadlockPath (msg : List Char)
  | modNotFound (modId : FPath)
  | settings (msg : List Char)
deriving DecidableEq

/-- Model of `commands.rs::parse_pak_number`.  In the source, `rfind` returns
a byte index which the code then reuses as a character offset for
`chars().skip`, and `digits.len()` is a byte length; the model reproduces
both faithfully. -/
def parse_pak_number (file_name : List Char) : Option Nat :=
  let lower := strToLower file_name
  if !("_dir.vpk".toList.isSuffixOf lower) then none
  else
    match rfindSub lower "pak".toList with
    | none => none
    | some idx =>
        let start := idx + 3
        let digits := (lower.drop start).take 2
        if utf8Len digits == 2 && digits.all (fun c => c.isDigit) then parseU32 digits
        else none

/-- Used pak numbers collected by scanning both directories, as in
`commands.rs::find_available_pak_number` (lines 1015-1032) and
`commands.rs::cleanup_addons` (lines 604-621). -/
def usedPakNumbers (fs : FS) (addons disabled : Dir) : Finset Nat :=
  ((fs.namesIn addons ++ fs.namesIn disabled).filterMap parse_pak_number).toFinset

/-- Exhaustion error produced by `find_available_pak_number`. -/
def pakExhaustedError : AppError := .settings "No available pak slots (00-99)".toList

/-- Slot-allocation policy of `commands.rs::find_available_pak_number`
(lines 1034-1047): scan `preferred..=99` ascending taking the first unused
slot, else wrap and scan `0..preferred` ascending, else fail. -/
def findAvailableInUsed (preferred : Nat) (used : Finset Nat) : Except AppError Nat :=
  match (List.range' preferred (100 - preferred)).find? (fun n => decide (n ∉ used)) with
  | some n => .ok n
  | none =>
      match (List.range preferred).find? (fun n => decide (n ∉ used)) with
      | some n => .ok n
      | none => .error pakExhaustedError

/-- Model of `commands.rs::find_available_pak_number`, composing the
directory scan with the allocation policy. -/
def find_available_pak_number (fs : FS) (addons disabled : Dir) (preferred : Nat) :
    Except AppError Nat :=
  findAvailableInUsed preferred (usedPakNumbers fs addons disabled)

/-- Model of `mods.rs::parse_vpk_priority` (lines 10-17).  The source slices
`&filename[3..5]` by byte index; the inner `Option` is the function's return
value and the outer `Option` is `none` when that slice panics (a byte index
off a character boundary). -/
def parse_vpk_priority (filename : List Char) : Option (Option Nat) :=
  if !("pak".toList.isPrefixOf filename) || !("_dir.vpk".toList.isSuffixOf filename) then
    some none
  else
    match byteSlice filename 3 5 with
    | none => none
    | some numberPart => some (parseU32 numberPart)

/-- Model of `mods.rs::generate_mod_id`: the source hashes the absolute path
string with `DefaultHasher`; the model abstracts the hash as the path itself
(an injective stand-in; hash collisions are not modelled). -/
def generate_mod_id (path : FPath) : FPath := path

/-- Model of `types.rs::Mod`, restricted to the fields the modelled code
reads or the claims mention (display name, size, timestamps and the optional
metadata fields are not modelled). -/
structure Mod where
  id : FPath
  file_name : List Char
  path : FPath
  enabled : Bool
  priority : Nat
deriving DecidableEq

/-- Loop body of `mods.rs::scan_folder` (lines 90-129) over the directory's
files: skip names that end neither in `_dir.vpk` nor in `.vpk`, parse the
priority (defaulting to 50 on parse failure), and build the record.  `none`
models a panic inside `parse_vpk_priority`. -/
def scanFiles (enabled : Bool) : List FPath → Option (List Mod)
  | [] => some []
  | p :: rest =>
      if !("_dir.vpk".toList.isSuffixOf p.name) && !(".vpk".toList.isSuffixOf p.name) then
        scanFiles enabled rest
      else
        match parse_vpk_priority p.name with
        | none => none
        | some parsed =>
            (scanFiles enabled rest).map (fun ms =>
              { id := generate_mod_id p, file_name := p.name, path := p,
                enabled := enabled, priority := parsed.getD 50 } :: ms)

/-- Model of `mods.rs::scan_folder`. -/
def scan_folder (fs : FS) (folder : Dir) (enabled : Bool) : Option (List Mod) :=
  scanFiles enabled (fs.filesIn folder)

/-- Stable insertion into a priority-sorted list, modelling
`Vec::sort_by_key` (a stable ascending sort). -/
def insertByPriority (m : Mod) : List Mod → List Mod
  | [] => [m]
  | x :: rest =>
      if x.priority < m.priority then x :: insertByPriority m rest else m :: x :: rest

/-- Stable ascending sort by priority. -/
def sortByPriority (l : List Mod) : List Mod := l.foldr insertByPriority []

/-- Model of `mods.rs::scan_mods` (lines 63-81): scan the addons directory as
enabled and the disabled directory as disabled, then sort by priority.  The
existence check on the disabled directory always succeeds in the model (the
code creates both directories on demand). -/
def scan_mods (fs : FS) (addons disabled : Dir) : Option (List Mod) :=
  match scan_folder fs addons true with
  | none => none
  | some enabledMods =>
      match scan_folder fs disabled false with
      | none => none
      | some disabledMods => some (sortByPriority (enabledMods ++ disabledMods))

/-- Canonical pak filename built by `mods.rs::set_mod_priority`
(lines 232-234): `pak` then a zero-padded two-digit priority field (the value
clamped to 99) then `_dir.vpk`. -/
def pakFileNameClamped (priority : Nat) : List Char :=
  "pak".toList ++ pad2 (decimalDigits (min priority 99)) ++ "_dir.vpk".toList

/-- Error message of the reprioritize collision branch
(`mods.rs::set_mod_priority`, lines 238-243). -/
def priorityInUseMsg (newPriority : Nat) : List Char :=
  "Priority ".toList ++ decimalDigits newPriority ++ " is already in use".toList

/-- Model of `mods.rs::enable_mod` (lines 135-158): re-scan, resolve by id,
no-op when already enabled, otherwise a single `fs::rename` into the addons
directory (no cross-device fallback).  The returned pair is the filesystem
after the operation together with the operation's result; the record's stale
`id` (still the hash of the old path) matches the source. -/
def enable_mod (fs : FS) (addons disabled : Dir) (modId : FPath) :
    Option (FS × Except AppError Mod) :=
  match scan_mods fs addons disabled with
  | none => none
  | some mods =>
      match mods.find? (fun m => m.id == modId) with
      | none => some (fs, .error (.modNotFound modId))
      | some m =>
          if m.enabled then some (fs, .ok m)
          else
            let dest : FPath := ⟨addons, m.file_name⟩
            match fs.rename m.path dest with
            | .error e => some (fs, .error (.ioErr e))
            | .ok fs' => some (fs', .ok { m with enabled := true, path := dest })

/-- Model of `mods.rs::disable_mod` (lines 161-184), symmetric to
`enable_mod`. -/
def disable_mod (fs : FS) (addons disabled : Dir) (modId : FPath) :
    Option (FS × Except AppError Mod) :=
  match scan_mods fs addons disabled with
  | none => none
  | some mods =>
      match mods.find? (fun m => m.id == modId) with
      | none => some (fs, .error (.modNotFound modId))
      | some m =>
          if !m.enabled then some (fs, .ok m)
          else
            let dest : FPath := ⟨disabled, m.file_name⟩
            match fs.rename m.path dest with
            | .error e => some (fs, .error (.ioErr e))
            | .ok fs' => some (fs', .ok { m with enabled := false, path := dest })

/-- Model of `mods.rs::set_mod_priority` (lines 216-254): compute the new
canonical filename from the clamped priority, fail when a different file
already occupies that name, otherwise a single `fs::rename` (no cross-device
fallback); the returned record carries the unclamped requested priority.  The
parent-directory lookup of the source cannot fail in the model. -/
def set_mod_priority (fs : FS) (addons disabled : Dir) (modId : FPath) (newPriority : Nat) :
    Option (FS × Except AppError Mod) :=
  match scan_mods fs addons disabled with
  | none => none
  | some mods =>
      match mods.find? (fun m => m.id == modId) with
      | none => some (fs, .error (.modNotFound modId))
      | some m =>
          let parent := m.path.dir
          let newFilename := pakFileNameClamped newPriority
          let dest : FPath := ⟨parent, newFilename⟩
          if fs.existsFile dest && !(dest == m.path) then
            some (fs, .error (.invalidDeadlockPath (priorityInUseMsg newPriority)))
          else
            match fs.rename m.path dest with
            | .error e => some (fs, .error (.ioErr e))
            | .ok fs' =>
                some (fs', .ok { m with priority := newPriority,
                                        file_name := newFilename, path := dest })

/-- Net effect of the sibling-removal loop of `mods.rs::delete_mod`
(lines 202-210): remove every file of the parent directory whose name starts
with the base name and ends with `.vpk`. -/
def removeMatchingSiblings (fs : FS) (parent : Dir) (base : List Char) : FS :=
  ⟨fs.files.filter (fun e =>
    !(e.1.dir == parent && base.isPrefixOf e.1.name && ".vpk".toList.isSuffixOf e.1.name))⟩

/-- Model of `mods.rs::delete_mod` (lines 187-213): remove the primary file,
then remove every sibling whose name starts with the base name (the filename
with `_dir.vpk` trimmed from the end) and ends with `.vpk`.  The
parent-directory lookup cannot fail in the model. -/
def delete_mod (fs : FS) (addons disabled : Dir) (modId : FPath) :
    Option (FS × Except AppError Unit) :=
  match scan_mods fs addons disabled with
  | none => none
  | some mods =>
      match mods.find? (fun m => m.id == modId) with
      | none => some (fs, .error (.modNotFound modId))
      | some m =>
          match fs.removeFile m.path with
          | .error e => some (fs, .error (.ioErr e))
          | .ok fs1 =>
              let base := trimEndMatches m.file_name "_dir.vpk".toList
              some (removeMatchingSiblings fs1 m.path.dir base, .ok ())

/-- Model of `mod_metadata.rs::ModMetadata`, restricted to the display name,
the only field the modelled code inspects; the optional catalog fields are
not modelled. -/
structure ModMetadata where
  name : List Char
deriving DecidableEq

/-- Metadata side-table: an association list from file names to entries,
modelling the `HashMap`; the operations keep at most one entry per key. -/
abbrev ModMetadataMap := List (List Char × ModMetadata)

/-- Model of `HashMap::get`. -/
def metaGet : ModMetadataMap → List Char → Option ModMetadata
  | [], _ => none
  | e :: rest, k => if e.1 = k then some e.2 else metaGet rest k

/-- Model of `HashMap::remove` (as far as the resulting map is concerned). -/
def metaRemove (m : ModMetadataMap) (k : List Char) : ModMetadataMap :=
  m.filter (fun e => !(e.1 == k))

/-- Model of `HashMap::insert`, replacing any entry under the key. -/
def metaInsert (m : ModMetadataMap) (k : List Char) (v : ModMetadata) : ModMetadataMap :=
  metaRemove m k ++ [(k, v)]

/-- Net effect of `mod_metadata.rs::remove_metadata_entry` (lines 69-75) on
the persisted map (load, remove, save; the JSON storage layer is not
modelled). -/
def remove_metadata_entry (m : ModMetadataMap) (file_name : List Char) : ModMetadataMap :=
  metaRemove m file_name

/-- Model of `commands.rs::rename_metadata_key_inline` (lines 984-993): move
the entry under the new key when present, otherwise leave the map alone. -/
def rename_metadata_key_inline (m : ModMetadataMap) (fromKey toKey : List Char) :
    ModMetadataMap :=
  match metaGet m fromKey with
  | none => m
  | some entry => metaInsert (metaRemove m fromKey) toKey entry

/-- Model of `commands.rs::delete_mod_cmd` (lines 91-103): best-effort
removal of the metadata entry keyed by the target's filename, then
`delete_mod`. -/
def delete_mod_cmd (fs : FS) (meta : ModMetadataMap) (addons disabled : Dir)
    (modId : FPath) : Option (FS × ModMetadataMap × Except AppError Unit) :=
  match scan_mods fs addons disabled with
  | none => none
  | some mods =>
      let meta' := match mods.find? (fun m => m.id == modId) with
        | some target => remove_metadata_entry meta target.file_name
        | none => meta
      match delete_mod fs addons disabled modId with
      | none => none
      | some (fs', r) => some (fs', meta', r)

/-- Textual form of an OS error, used inside wrapped error messages. -/
def ioErrText : IoErr → List Char
  | .notFound => "No such file or directory".toList
  | .crossDevice => "Invalid cross-device link".toList

/-- Model of `commands.rs::move_with_fallback` (lines 995-1008): try
`fs::rename`; on raw OS error 18 (EXDEV, modelled as `crossDevice`) fall
back to copy-then-delete-source; wrap any other error. -/
def move_with_fallback (fs : FS) (source dest : FPath) : Except AppError FS :=
  match fs.rename source dest with
  | .ok fs' => .ok fs'
  | .error e =>
      if e = IoErr.crossDevice then
        match fs.copy source dest with
        | .error e2 => .error (.ioErr e2)
        | .ok fs1 =>
            match fs1.removeFile source with
            | .error e3 => .error (.ioErr e3)
            | .ok fs2 => .ok fs2
      else .error (.settings ("Failed to move file: ".toList ++ ioErrText e))

/-- Split a path at `/` separators. -/
def splitOnSlashAux : List Char → List Char → List (List Char)
  | [], acc => [acc.reverse]
  | c :: rest, acc =>
      if c = '/' then acc.reverse :: splitOnSlashAux rest []
      else splitOnSlashAux rest (c :: acc)

/-- Components of a slash-separated path. -/
def splitOnSlash (s : List Char) : List (List Char) := splitOnSlashAux s []

/-- Model of `Path::file_name`: the last nonempty component, unless it is
`..`. -/
def lastComponent (p : List Char) : Option (List Char) :=
  match ((splitOnSlash p).filter (fun c => !c.isEmpty)).getLast? with
  | none => none
  | some last => if last = "..".toList then none else some last

/-- Index of the last occurrence of a character. -/
def rfindCharIdx : List Char → Char → Option Nat
  | [], _ => none
  | x :: rest, c =>
      match rfindCharIdx rest c with
      | some i => some (i + 1)
      | none => if x = c then some 0 else none

/-- Model of `Path::extension`: the part of the file name after its last dot,
provided that dot is not the leading character of the file name. -/
def extensionOf (p : List Char) : Option (List Char) :=
  match lastComponent p with
  | none => none
  | some base =>
      match rfindCharIdx base '.' with
      | none => none
      | some 0 => none
      | some i => some (base.drop (i + 1))

/-- Archive extensions recognised by `extract.rs::is_archive` and by the
normalizer's leftover-archive sweep. -/
def archiveExts : List (List Char) := ["zip".toList, "7z".toList, "rar".toList]

/-- Model of `extract.rs::is_archive` (lines 9-16). -/
def is_archive (name : List Char) : Bool :=
  match extensionOf name with
  | some e => archiveExts.contains (strToLower e)
  | none => false

/-- Entry of a zip archive: its path inside the archive, whether it is a
directory entry, and its content. -/
structure ZipEntry where
  name : List Char
  isDir : Bool
  content : Nat
deriving DecidableEq

/-- Model of `ZipFile::enclosed_name`: rejects absolute paths and any `..`
component. -/
def enclosedName (p : List Char) : Option (List Char) :=
  if p.head? = some '/' ∨ (splitOnSlash p).any (fun c => c == "..".toList) then none
  else some p

/-- Model of `extract.rs::extract_zip` (lines 38-89).  Entries are processed
in archive order; entries with no enclosed name and directory entries are
skipped; only entries with a `vpk` extension (compared case-insensitively)
are materialized, flattened to their base file name directly in the
destination directory, later entries overwriting earlier ones.  The outer
`Option` models the `file_name().unwrap()` panic (unreachable for an entry
with an extension).  Archive-open and entry-read errors are not modelled. -/
def extract_zip (fs : FS) (archive : List ZipEntry) (destDir : Dir) :
    Option (FS × List FPath) :=
  match archive with
  | [] => some (fs, [])
  | entry :: rest =>
      match enclosedName entry.name with
      | none => extract_zip fs rest destDir
      | some outpath =>
          if entry.isDir then extract_zip fs rest destDir
          else
            let isVpk := match extensionOf outpath with
              | some ext => strToLower ext == "vpk".toList
              | none => false
            if !isVpk then extract_zip fs rest destDir
            else
              match lastComponent outpath with
              | none => none
              | some base =>
                  let finalPath : FPath := ⟨destDir, base⟩
                  match extract_zip (fs.write finalPath entry.content) rest destDir with
                  | none => none
                  | some (fs', paths) => some (fs', finalPath :: paths)

/-- Environment of the 7z/rar extraction model: the outcome of the primary
in-process decompression (`sevenz_rust`) over the archive, and, per external
tool name, the outcome of running that tool (`none` means the tool is missing
or failed; `some entries` is the tree of files it would extract, as
archive-relative paths with contents). -/
structure ToolEnv where
  primaryOk : Bool
  primaryEntries : List (List Char × Nat)
  toolResult : List Char → Option (List (List Char × Nat))

/-- Observable attempts of the extraction fallback chain. -/
inductive ExtractStep
  | primaryDecompress
  | externalTool (tool : List Char)
deriving DecidableEq

/-- Per-entry callback of the primary 7z decompression (`extract.rs`
lines 107-132): skip non-vpk entries (case-insensitive), flatten each kept
entry to its base file name in the destination, skip entries with no file
name. -/
def write7zEntries (destDir : Dir) : FS → List (List Char × Nat) → FS
  | fs, [] => fs
  | fs, (name, content) :: rest =>
      if ".vpk".toList.isSuffixOf (strToLower name) then
        match lastComponent name with
        | some base => write7zEntries destDir (fs.write ⟨destDir, base⟩ content) rest
        | none => write7zEntries destDir fs rest
      else write7zEntries destDir fs rest

/-- Scan of the destination directory after primary 7z decompression
(`extract.rs` lines 182-189): collect the files whose extension is exactly
`vpk` (a case-sensitive comparison in this code path). -/
def collectDestVpks (fs : FS) (destDir : Dir) : List FPath :=
  (fs.filesIn destDir).filter (fun p => extensionOf p.name == some "vpk".toList)

/-- Write the tree extracted by an external tool into the scratch directory;
the archive-relative path is kept as the file name. -/
def writeToolEntries (tempDir : Dir) : FS → List (List Char × Nat) → FS
  | fs, [] => fs
  | fs, (name, content) :: rest =>
      writeToolEntries tempDir (fs.write ⟨tempDir, name⟩ content) rest

/-- Model of `extract.rs::collect_vpks` (lines 270-289): every file under the
scratch tree whose extension is exactly `vpk` (case-sensitive). -/
def collect_vpks (fs : FS) (root : Dir) : List FPath :=
  (fs.filesIn root).filter (fun p => extensionOf p.name == some "vpk".toList)

/-- Model of `extract.rs::copy_vpks_to_dest` (lines 291-305): copy each file
(`fs::copy`, keeping the source) into the destination under its base name,
failing when a file name cannot be derived; the filesystem reached so far is
returned alongside the result. -/
def copy_vpks_to_dest (fs : FS) (extracted : List FPath) (destDir : Dir) :
    FS × Except AppError (List FPath) :=
  match extracted with
  | [] => (fs, .ok [])
  | p :: rest =>
      match lastComponent p.name with
      | none => (fs, .error (.settings "Invalid VPK filename".toList))
      | some base =>
          match fs.copy p ⟨destDir, base⟩ with
          | .error e => (fs, .error (.ioErr e))
          | .ok fs1 =>
              match copy_vpks_to_dest fs1 rest destDir with
              | (fs2, .error e) => (fs2, .error e)
              | (fs2, .ok copied) => (fs2, .ok ((⟨destDir, base⟩ : FPath) :: copied))

/-- Model of `std::fs::remove_dir_all`: drop every file under the
directory. -/
def removeDirAll (fs : FS) (d : Dir) : FS :=
  ⟨fs.files.filter (fun e => !(e.1.dir == d))⟩

/-- Shared external-tool loop of `extract_7z` (lines 139-166) and
`extract_rar` (lines 199-241): try each tool in order; on the first success
collect the package files from the scratch directory, copy them (not move
them) into the destination, remove the scratch directory and return; a copy
failure propagates, leaving the scratch directory in place as in the source;
when every tool fails the scratch directory is removed and the extraction
fails with the chain's message (the appended tool error text is not
modelled). -/
def tryExternalTools (env : ToolEnv) (tempDir destDir : Dir) (failMsg : List Char) :
    FS → List (List Char) → List ExtractStep × FS × Except AppError (List FPath)
  | fs, [] => ([], removeDirAll fs tempDir, .error (.settings failMsg))
  | fs, t :: rest =>
      match env.toolResult t with
      | some entries =>
          let fs1 := writeToolEntries tempDir fs entries
          match copy_vpks_to_dest fs1 (collect_vpks fs1 tempDir) destDir with
          | (fs2, .error e) => ([.externalTool t], fs2, .error e)
          | (fs2, .ok copied) => ([.externalTool t], removeDirAll fs2 tempDir, .ok copied)
      | none =>
          let next := tryExternalTools env tempDir destDir failMsg fs rest
          (.externalTool t :: next.1, next.2.1, next.2.2)

/-- Failure message of the 7z fallback chain (quotes and the appended tool
error text of the source message are elided). -/
def sevenZFailMsg : List Char :=
  "Failed to extract 7z. Install 7z (p7zip) or 7za and try again.".toList

/-- Failure message of the rar fallback chain (quotes and the appended tool
error text of the source message are elided). -/
def rarFailMsg : List Char :=
  "RAR extraction failed. Install 7z or unrar and try again.".toList

/-- Result of one archive extraction in the trace model: the attempts made,
the final filesystem, and the returned value. -/
structure ExtractOutcome where
  steps : List ExtractStep
  fs : FS
  result : Except AppError (List FPath)

/-- Model of `extract.rs::extract_7z` (lines 92-192): primary in-process
decompression is attempted first; only on its failure the external tools 7z
then 7za are tried, each into a scratch directory; after a successful primary
decompression the destination directory is rescanned for `vpk` files. -/
def extract_7z (env : ToolEnv) (fs : FS) (destDir tempDir : Dir) : ExtractOutcome :=
  if env.primaryOk then
    let fs1 := write7zEntries destDir fs env.primaryEntries
    ⟨[.primaryDecompress], fs1, .ok (collectDestVpks fs1 destDir)⟩
  else
    let next := tryExternalTools env tempDir destDir sevenZFailMsg fs
      ["7z".toList, "7za".toList]
    ⟨.primaryDecompress :: next.1, next.2.1, next.2.2⟩

/-- Model of `extract.rs::extract_rar` (lines 195-254): no in-process rar
decompression exists; the external tools 7z, 7za, unrar are tried in order
immediately. -/
def extract_rar (env : ToolEnv) (fs : FS) (destDir tempDir : Dir) : ExtractOutcome :=
  let next := tryExternalTools env tempDir destDir rarFailMsg fs
    ["7z".toList, "7za".toList, "unrar".toList]
  ⟨next.1, next.2.1, next.2.2⟩

/-- Environment fixture for the C6 counterexample: in-process decompression
of the archive would succeed, every external tool fails. -/
def envC6 : ToolEnv :=
  { primaryOk := true,
    primaryEntries := [("pak05_dir.vpk".toList, 7)],
    toolResult := fun _ => none }

/-- Environment fixture for the C6 witness: in-process decompression fails
and the first external tool succeeds with a nested package file and a
non-package file. -/
def envC6b : ToolEnv :=
  { primaryOk := false,
    primaryEntries := [],
    toolResult := fun t =>
      if t = "7z".toList then some [("sub/pak05_dir.vpk".toList, 5), ("c.txt".toList, 6)]
      else none }

/-- Scratch directory fixture for C6. -/
def tempDirC6 : Dir := ⟨0, "tmp/modmanager-scratch"⟩

/-- Canonical pak filename for a slot number (the un-clamped `format!` used
by the normalizer and the variant applier, where the slot is already in
range). -/
def pakFileName (n : Nat) : List Char :=
  "pak".toList ++ pad2 (decimalDigits n) ++ "_dir.vpk".toList

/-- Model of `commands.rs::is_pak_file` (lines 955-958). -/
def is_pak_file (file_name : List Char) : Bool :=
  let lower := strToLower file_name
  "pak".toList.isPrefixOf lower && "_dir.vpk".toList.isSuffixOf lower &&
    (parse_pak_number lower).isSome

/-- Model of `commands.rs::is_mina_texture` (lines 960-969). -/
def is_mina_texture (file_name : List Char) : Bool :=
  let lower := strToLower file_name
  if !(".vpk".toList.isSuffixOf lower) then false
  else if !(containsSub lower "textures".toList) then false
  else
    containsSub lower "mina".toList || containsSub lower "midnight".toList ||
      lower == "textures-pak21_dir.vpk".toList

/-- Model of `commands.rs::is_mina_preset` (lines 971-982); the metadata
marker test reads the entry under the original-case file name. -/
def is_mina_preset (file_name : List Char) (metadataMap : Option ModMetadataMap) : Bool :=
  let lower := strToLower file_name
  let isMetadataMina := match metadataMap with
    | none => false
    | some map =>
        match metaGet map file_name with
        | some meta => "Midnight Mina —".toList.isPrefixOf meta.name
        | none => false
  ("clothing_preset_".toList.isPrefixOf lower ||
      "sts_midnight_mina_".toList.isPrefixOf lower || isMetadataMina) &&
    ".vpk".toList.isSuffixOf lower && !(is_mina_texture file_name)

/-- State threaded through the normalizer sweep (`cleanup_addons`): the
filesystem, the metadata map, the used-slot set and the action counters. -/
structure CleanupSt where
  fs : FS
  metaMap : ModMetadataMap
  used : Finset Nat
  removedArchives : Nat
  renamedMinaPresets : Nat
  renamedMinaTextures : Nat
  skippedMinaPresets : Nat
  skippedMinaTextures : Nat

/-- One file of the leftover-archive phase of `cleanup_addons`
(lines 623-642): remove the file when its lower-cased extension is one of the
archive extensions. -/
def archiveStep (d : Dir) (st : CleanupSt) (name : List Char) : Except AppError CleanupSt :=
  let isArch := match extensionOf name with
    | some e => archiveExts.contains (strToLower e)
    | none => false
  if isArch then
    match st.fs.removeFile ⟨d, name⟩ with
    | .error e => .error (.ioErr e)
    | .ok fs' => .ok { st with fs := fs', removedArchives := st.removedArchives + 1 }
  else .ok st

/-- One file of the Mina-texture phase of `cleanup_addons` (lines 645-675):
rename a recognised texture file to pak21_dir.vpk unless slot 21 is used. -/
def textureStep (d : Dir) (st : CleanupSt) (name : List Char) : Except AppError CleanupSt :=
  if !(is_mina_texture name) then .ok st
  else if name = "pak21_dir.vpk".toList then .ok st
  else if 21 ∈ st.used then
    .ok { st with skippedMinaTextures := st.skippedMinaTextures + 1 }
  else
    match move_with_fallback st.fs ⟨d, name⟩ ⟨d, "pak21_dir.vpk".toList⟩ with
    | .error e => .error e
    | .ok fs' =>
        .ok { st with
          fs := fs',
          metaMap := rename_metadata_key_inline st.metaMap name "pak21_dir.vpk".toList,
          used := insert 21 st.used,
          renamedMinaTextures := st.renamedMinaTextures + 1 }

/-- Inline slot search of the preset phase of `cleanup_addons`
(lines 698-713): the first free slot in 20..=99, else the first free slot in
0..20, else none. -/
def presetTarget (used : Finset Nat) : Option Nat :=
  match (List.range' 20 80).find? (fun n => decide (n ∉ used)) with
  | some n => some n
  | none => (List.range 20).find? (fun n => decide (n ∉ used))

/-- One file of the Mina-preset phase of `cleanup_addons` (lines 678-731):
rename a non-conforming variant file to the allocated slot, skipping (and
counting) when no slot remains or the destination already exists; the
used-slot set is updated in place. -/
def presetStep (d : Dir) (st : CleanupSt) (name : List Char) : Except AppError CleanupSt :=
  if !(is_mina_preset name (some st.metaMap)) then .ok st
  else if is_pak_file name then .ok st
  else
    match presetTarget st.used with
    | none => .ok { st with skippedMinaPresets := st.skippedMinaPresets + 1 }
    | some targetNumber =>
        let destFileName := pakFileName targetNumber
        let destPath : FPath := ⟨d, destFileName⟩
        if st.fs.existsFile destPath then
          .ok { st with skippedMinaPresets := st.skippedMinaPresets + 1 }
        else
          match move_with_fallback st.fs ⟨d, name⟩ destPath with
          | .error e => .error e
          | .ok fs' =>
              .ok { st with
                fs := fs',
                metaMap := rename_metadata_key_inline st.metaMap name destFileName,
                used := insert targetNumber st.used,
                renamedMinaPresets := st.renamedMinaPresets + 1 }

/-- Run one phase step over a snapshot of file names, aborting on the first
error, matching the `?` propagation inside the source loops. -/
def runPhase (step : CleanupSt → List Char → Except AppError CleanupSt) :
    CleanupSt → List (List Char) → Except AppError CleanupSt
  | st, [] => .ok st
  | st, n :: rest =>
      match step st n with
      | .error e => .error e
      | .ok st' => runPhase step st' rest

/-- Run one phase over a directory: the snapshot of names is taken from the
state's filesystem when the directory is reached, as `read_dir` does. -/
def runDirPhase (step : Dir → CleanupSt → List Char → Except AppError CleanupSt)
    (d : Dir) (st : CleanupSt) : Except AppError CleanupSt :=
  runPhase (step d) st (st.fs.namesIn d)

/-- Model of `commands.rs::cleanup_addons` (lines 588-743): compute the
used-slot set from both directories, delete leftover archives, normalize Mina
textures to slot 21, then normalize Mina presets into free slots at or above
20 (wrapping below 20), each phase over the addons directory then the
disabled directory; the final best-effort metadata save is not modelled
beyond the returned map. -/
def cleanup_addons (fs : FS) (meta : ModMetadataMap) (addons disabled : Dir) :
    Except AppError CleanupSt := do
  let used := usedPakNumbers fs addons disabled
  let st0 : CleanupSt := ⟨fs, meta, used, 0, 0, 0, 0, 0⟩
  let st1 ← runDirPhase archiveStep addons st0
  let st2 ← runDirPhase archiveStep disabled st1
  let st3 ← runDirPhase textureStep addons st2
  let st4 ← runDirPhase textureStep disabled st3
  let st5 ← runDirPhase presetStep addons st4
  let st6 ← runDirPhase presetStep disabled st5
  pure st6

/-- Concrete addons directory used by closed witnesses, on device 0. -/
def addonsDir : Dir := ⟨0, "game/citadel/addons"⟩

/-- Concrete disabled directory used by closed witnesses, on device 0 (the
same volume as the addons directory). -/
def disabledDir : Dir := ⟨0, "game/citadel/addons/.disabled"⟩

/-- Concrete disabled directory on a different device (device 1), used to
exercise cross-device rename failures. -/
def disabledDirDev1 : Dir := ⟨1, "game/citadel/addons/.disabled"⟩

/-- Fixture for the C3 witness: two enabled packages at slots 5 and 7. -/
def fsC3 : FS :=
  ⟨[(⟨addonsDir, "pak05_dir.vpk".toList⟩, 1),
    (⟨addonsDir, "pak07_dir.vpk".toList⟩, 2)]⟩

/-- Record produced by the scan of `fsC3` for the slot-5 package. -/
def modC3 : Mod :=
  { id := ⟨addonsDir, "pak05_dir.vpk".toList⟩,
    file_name := "pak05_dir.vpk".toList,
    path := ⟨addonsDir, "pak05_dir.vpk".toList⟩,
    enabled := true, priority := 5 }

/-- Fixture for the C10 witness: one enabled package at slot 5. -/
def fsC10 : FS := ⟨[(⟨addonsDir, "pak05_dir.vpk".toList⟩, 1)]⟩

/-- Record produced by the scan of `fsC10`. -/
def modC10 : Mod :=
  { id := ⟨addonsDir, "pak05_dir.vpk".toList⟩,
    file_name := "pak05_dir.vpk".toList,
    path := ⟨addonsDir, "pak05_dir.vpk".toList⟩,
    enabled := true, priority := 5 }

/-- Fixture for C2: a single disabled package on a different device than the
addons directory. -/
def fsC2 : FS := ⟨[(⟨disabledDirDev1, "pak05_dir.vpk".toList⟩, 1)]⟩

/-- Source path of the C2 fixture. -/
def srcC2 : FPath := ⟨disabledDirDev1, "pak05_dir.vpk".toList⟩

/-- Destination path of the C2 fixture, in the addons directory on device 0. -/
def dstC2 : FPath := ⟨addonsDir, "pak05_dir.vpk".toList⟩

/-- Record produced by the scan of `fsC2`. -/
def modC2 : Mod :=
  { id := srcC2, file_name := "pak05_dir.vpk".toList, path := srcC2,
    enabled := false, priority := 5 }

/-- Fixture for the disable part of the C2 witness: a single enabled package
in the addons directory, with the disabled directory on a different device. -/
def fsC2en : FS := ⟨[(⟨addonsDir, "pak05_dir.vpk".toList⟩, 1)]⟩

/-- Record produced by the scan of `fsC2en`. -/
def modC2en : Mod :=
  { id := ⟨addonsDir, "pak05_dir.vpk".toList⟩, file_name := "pak05_dir.vpk".toList,
    path := ⟨addonsDir, "pak05_dir.vpk".toList⟩, enabled := true, priority := 5 }

/-- Fixture for the C7 witness: a slot-5 package with a multi-part sibling
and an unrelated slot-7 package. -/
def fsC7 : FS :=
  ⟨[(⟨addonsDir, "pak05_dir.vpk".toList⟩, 1),
    (⟨addonsDir, "pak05_000.vpk".toList⟩, 2),
    (⟨addonsDir, "pak07_dir.vpk".toList⟩, 3)]⟩

/-- Record produced by the scan of `fsC7` for the slot-5 package. -/
def modC7 : Mod :=
  { id := ⟨addonsDir, "pak05_dir.vpk".toList⟩,
    file_name := "pak05_dir.vpk".toList,
    path := ⟨addonsDir, "pak05_dir.vpk".toList⟩,
    enabled := true, priority := 5 }

/-- Metadata fixture for the C7 witness. -/
def metaC7 : ModMetadataMap := [("pak05_dir.vpk".toList, ⟨"Cool Skin".toList⟩)]

/-- Fixture for the C9 witness: slots 20 and 21 occupied, three
non-conforming variant files. -/
def fsC9 : FS :=
  ⟨[(⟨addonsDir, "pak20_dir.vpk".toList⟩, 1),
    (⟨addonsDir, "pak21_dir.vpk".toList⟩, 2),
    (⟨addonsDir, "clothing_preset_a.vpk".toList⟩, 3),
    (⟨addonsDir, "clothing_preset_b.vpk".toList⟩, 4),
    (⟨addonsDir, "clothing_preset_c.vpk".toList⟩, 5)]⟩

/-- Normalizer state fixture for the C9 witness. -/
def stC9 : CleanupSt := ⟨fsC9, [], {20, 21}, 0, 0, 0, 0, 0⟩

/-- Snapshot names processed in the C9 witness. -/
def namesC9 : List (List Char) :=
  ["clothing_preset_a.vpk".toList, "clothing_preset_b.vpk".toList,
    "clothing_preset_c.vpk".toList]

/-- Helper: `find?` returns `none` exactly when every element fails the
predicate. -/
theorem findNoneIff {α} (p : α → Bool) :
    ∀ l : List α, l.find? p = none ↔ ∀ x ∈ l, p x = false := by
  intro l
  induction l with
  | nil => simp
  | cons a t ih =>
      cases h : p a with
      | true => simp [List.find?_cons, h]
      | false => simp [List.find?_cons, h, ih]

/-- Helper: a successful `find?` over `range' a n` returns an element of the
range satisfying the predicate, with every earlier element failing it. -/
theorem findSomeFirst {p : Nat → Bool} :
    ∀ (n a x : Nat), (List.range' a n).find? p = some x →
      a ≤ x ∧ x < a + n ∧ p x = true ∧ ∀ m, a ≤ m → m < x → p m = false := by
  intro n
  induction n with
  | zero => intro a x h; simp at h
  | succ k ih =>
      intro a x h
      rw [List.range'_succ, List.find?_cons] at h
      cases hpa : p a with
      | true =>
          rw [hpa] at h
          have hax : a = x := by
            have h' : some a = some x := h
            exact Option.some.inj h'
          subst hax
          exact ⟨Nat.le_refl a, by omega, hpa, fun m hm1 hm2 => absurd hm1 (by omega)⟩
      | false =>
          rw [hpa] at h
          have h' : (List.range' (a + 1) k).find? p = some x := h
          obtain ⟨h1, h2, h3, h4⟩ := ih (a + 1) x h'
          refine ⟨by omega, by omega, h3, ?_⟩
          intro m hm1 hm2
          rcases Nat.eq_or_lt_of_le hm1 with rfl | hlt
          · exact hpa
          · exact h4 m hlt hm2

/-- Helper: a lookup is unaffected by filtering when the filter keeps every
binding of the key. -/
theorem lookupPath_filter_keep (keep : FPath × Nat → Bool) (q : FPath)
    (h : ∀ c, keep (q, c) = true) :
    ∀ l : List (FPath × Nat), lookupPath (l.filter keep) q = lookupPath l q := by
  intro l
  induction l with
  | nil => rfl
  | cons e rest ih =>
      obtain ⟨p, c⟩ := e
      by_cases hpq : p = q
      · subst hpq
        simp [List.filter_cons, h c, lookupPath]
      · cases hk : keep (p, c) with
        | true => simp [List.filter_cons, hk, lookupPath, hpq, ih]
        | false => simp [List.filter_cons, hk, lookupPath, hpq, ih]

/-- Helper: a lookup returns `none` after filtering out every binding of the
key. -/
theorem lookupPath_filter_drop (keep : FPath × Nat → Bool) (q : FPath)
    (h : ∀ c, keep (q, c) = false) :
    ∀ l : List (FPath × Nat), lookupPath (l.filter keep) q = none := by
  intro l
  induction l with
  | nil => rfl
  | cons e rest ih =>
      obtain ⟨p, c⟩ := e
      by_cases hpq : p = q
      · subst hpq
        simp [List.filter_cons, h c, ih]
      · cases hk : keep (p, c) with
        | true => simp [List.filter_cons, hk, lookupPath, hpq, ih]
        | false => simp [List.filter_cons, hk, ih]

/-- Helper: filtering cannot make an absent key present. -/
theorem lookupPath_filter_none (keep : FPath × Nat → Bool) (q : FPath) :
    ∀ l : List (FPath × Nat), lookupPath l q = none →
      lookupPath (l.filter keep) q = none := by
  intro l
  induction l with
  | nil => intro _; rfl
  | cons e rest ih =>
      intro hl
      obtain ⟨p, c⟩ := e
      have hpq : ¬ p = q := by
        intro hpq
        simp [lookupPath, hpq] at hl
      have hrest : lookupPath rest q = none := by
        simpa [lookupPath, hpq] using hl
      cases hk : keep (p, c) with
      | true => simp [List.filter_cons, hk, lookupPath, hpq, ih hrest]
      | false => simp [List.filter_cons, hk, ih hrest]

/-- Helper: lookup distributes over append. -/
theorem lookupPath_append (q : FPath) :
    ∀ l1 l2 : List (FPath × Nat),
      lookupPath (l1 ++ l2) q = (lookupPath l1 q).or (lookupPath l2 q) := by
  intro l1 l2
  induction l1 with
  | nil => simp [lookupPath]
  | cons e rest ih =>
      obtain ⟨p, c⟩ := e
      by_cases hpq : p = q
      · simp [lookupPath, hpq]
      · simp [lookupPath, hpq, ih]

/-- Helper: erasing a path removes it. -/
theorem FS.read_erase_self (fs : FS) (p : FPath) : (fs.erase p).read p = none :=
  lookupPath_filter_drop _ p (fun c => by simp) fs.files

/-- Helper: erasing a path leaves other paths unchanged. -/
theorem FS.read_erase_ne (fs : FS) (p q : FPath) (h : q ≠ p) :
    (fs.erase p).read q = fs.read q :=
  lookupPath_filter_keep _ q (fun c => by simp [h]) fs.files

/-- Helper: writing a path makes its content readable. -/
theorem FS.read_write_self (fs : FS) (p : FPath) (c : Nat) :
    (fs.write p c).read p = some c := by
  show lookupPath ((fs.erase p).files ++ [(p, c)]) p = some c
  rw [lookupPath_append]
  have h1 : lookupPath (fs.erase p).files p = none := FS.read_erase_self fs p
  rw [h1]
  simp [lookupPath]

/-- Helper: writing a path leaves other paths unchanged. -/
theorem FS.read_write_ne (fs : FS) (p q : FPath) (c : Nat) (h : q ≠ p) :
    (fs.write p c).read q = fs.read q := by
  show lookupPath ((fs.erase p).files ++ [(p, c)]) q = fs.read q
  rw [lookupPath_append]
  have h1 : lookupPath (fs.erase p).files q = fs.read q := FS.read_erase_ne fs p q h
  rw [h1]
  cases hq : fs.read q with
  | some c2 => rfl
  | none => simp [lookupPath, Ne.symm h]

/-- Helper: removing a metadata key removes its entry. -/
theorem metaGet_remove_self (k : List Char) :
    ∀ m : ModMetadataMap, metaGet (metaRemove m k) k = none := by
  intro m
  induction m with
  | nil => rfl
  | cons e rest ih =>
      obtain ⟨k2, v⟩ := e
      by_cases hk2 : k2 = k
      · subst hk2
        simpa [metaRemove, List.filter_cons] using ih
      · simpa [metaRemove, List.filter_cons, hk2, metaGet] using ih

/-- Claim C1: for every preferred slot in [0,99] and every set of used slots,
the allocator scans `preferred..=99` ascending and returns the first free
slot; failing that it scans `0..preferred` ascending; it reports exhaustion
exactly when every slot in [0,99] is used; and when every slot except
`preferred` is used it returns `preferred`. -/
theorem c1_find_available_policy (preferred : Nat) (hp : preferred ≤ 99) (used : Finset Nat) :
    (∀ n, findAvailableInUsed preferred used = .ok n →
        n ∉ used ∧
          ((preferred ≤ n ∧ n ≤ 99 ∧ ∀ m, preferred ≤ m → m < n → m ∈ used) ∨
            (n < preferred ∧ (∀ m, preferred ≤ m → m ≤ 99 → m ∈ used) ∧
              ∀ m, m < n → m ∈ used))) ∧
      (findAvailableInUsed preferred used = .error pakExhaustedError ↔
        ∀ n, n ≤ 99 → n ∈ used) ∧
      (used = (Finset.range 100).erase preferred →
        findAvailableInUsed preferred used = .ok preferred) := by
  have hsum : preferred + (100 - preferred) = 100 := by omega
  refine ⟨?_, ?_, ?_⟩
  · intro n hn
    unfold findAvailableInUsed at hn
    cases h1 : (List.range' preferred (100 - preferred)).find?
        (fun n => decide (n ∉ used)) with
    | some m =>
        rw [h1] at hn
        have hmn : m = n := by simpa using hn
        obtain ⟨ha, hb, hc, hd⟩ := findSomeFirst (100 - preferred) preferred m h1
        rw [← hmn]
        simp at hc
        refine ⟨hc, Or.inl ⟨ha, by omega, ?_⟩⟩
        intro j hm1 hm2
        have := hd j hm1 hm2
        simpa using this
    | none =>
        rw [h1] at hn
        cases h2 : (List.range preferred).find? (fun n => decide (n ∉ used)) with
        | some m =>
            rw [h2] at hn
            have hmn : m = n := by simpa using hn
            rw [List.range_eq_range'] at h2
            obtain ⟨ha, hb, hc, hd⟩ := findSomeFirst preferred 0 m h2
            rw [← hmn]
            simp at hc
            have hall : ∀ m, preferred ≤ m → m ≤ 99 → m ∈ used := by
              intro m hm1 hm2
              have hmem : m ∈ List.range' preferred (100 - preferred) := by
                rw [List.mem_range'_1]
                omega
              have := (findNoneIff _ _).mp h1 m hmem
              simpa using this
            refine ⟨hc, Or.inr ⟨by omega, hall, ?_⟩⟩
            intro j hm2
            have := hd j (Nat.zero_le j) hm2
            simpa using this
        | none =>
            rw [h2] at hn
            simp [pakExhaustedError] at hn
  · constructor
    · intro h n hn
      unfold findAvailableInUsed at h
      cases h1 : (List.range' preferred (100 - preferred)).find?
          (fun n => decide (n ∉ used)) with
      | some m => rw [h1] at h; simp at h
      | none =>
          rw [h1] at h
          cases h2 : (List.range preferred).find? (fun n => decide (n ∉ used)) with
          | some m => rw [h2] at h; simp at h
          | none =>
              by_cases hcase : preferred ≤ n
              · have hmem : n ∈ List.range' preferred (100 - preferred) := by
                  rw [List.mem_range'_1]; omega
                have := (findNoneIff _ _).mp h1 n hmem
                simpa using this
              · have hmem : n ∈ List.range preferred := by
                  rw [List.mem_range]; omega
                have := (findNoneIff _ _).mp h2 n hmem
                simpa using this
    · intro hall
      unfold findAvailableInUsed
      have h1 : (List.range' preferred (100 - preferred)).find?
          (fun n => decide (n ∉ used)) = none := by
        rw [findNoneIff]
        intro x hx
        rw [List.mem_range'_1] at hx
        simpa using hall x (by omega)
      have h2 : (List.range preferred).find? (fun n => decide (n ∉ used)) = none := by
        rw [findNoneIff]
        intro x hx
        rw [List.mem_range] at hx
        simpa using hall x (by omega)
      rw [h1, h2]
  · intro hused
    unfold findAvailableInUsed
    obtain ⟨k, hk⟩ : ∃ k, 100 - preferred = k + 1 := ⟨99 - preferred, by omega⟩
    have hfree : decide (preferred ∉ used) = true := by simp [hused]
    rw [hk, List.range'_succ, List.find?_cons]
    simp only [hfree]

/-- Witness for C1: the policy theorem applied at preferred = 23 with used
slots 20 and 21. -/
theorem c1_find_available_policy_witness :
    (∀ n, findAvailableInUsed 23 ({20, 21} : Finset Nat) = .ok n →
        n ∉ ({20, 21} : Finset Nat) ∧
          ((23 ≤ n ∧ n ≤ 99 ∧ ∀ m, 23 ≤ m → m < n → m ∈ ({20, 21} : Finset Nat)) ∨
            (n < 23 ∧ (∀ m, 23 ≤ m → m ≤ 99 → m ∈ ({20, 21} : Finset Nat)) ∧
              ∀ m, m < n → m ∈ ({20, 21} : Finset Nat)))) ∧
      (findAvailableInUsed 23 ({20, 21} : Finset Nat) = .error pakExhaustedError ↔
        ∀ n, n ≤ 99 → n ∈ ({20, 21} : Finset Nat)) ∧
      (({20, 21} : Finset Nat) = (Finset.range 100).erase 23 →
        findAvailableInUsed 23 ({20, 21} : Finset Nat) = .ok 23) :=
  c1_find_available_policy 23 (by decide) {20, 21}

/-- Claim C5: for every priority p in [0,99], formatting p into the canonical
filename pak<NN>_dir.vpk and parsing that filename's priority field recovers
exactly p. -/
theorem c5_format_parse_roundtrip (p : Nat) (hp : p ≤ 99) :
    parse_vpk_priority (pakFileNameClamped p) = some (some p) := by
  revert hp
  revert p
  decide

/-- Witness for C5 at p = 7. -/
theorem c5_format_parse_roundtrip_witness :
    7 ≤ 99 ∧ parse_vpk_priority (pakFileNameClamped 7) = some (some 7) :=
  ⟨by decide, c5_format_parse_roundtrip 7 (by decide)⟩

/-- Claim C4 (refuting evaluation): the filename pak€_dir.vpk passes the
scanner's package-suffix filter, but the byte slice `filename[3..5]` inside
`parse_vpk_priority` falls off a character boundary of the multi-byte
character at the priority offset, so the parse — and with it the whole scan —
panics (modelled as `none`) instead of assigning the default priority 50. -/
theorem c4_scan_panics_on_multibyte_priority :
    parse_vpk_priority "pak€_dir.vpk".toList = none ∧
      scan_mods ⟨[(⟨addonsDir, "pak€_dir.vpk".toList⟩, 1)]⟩ addonsDir disabledDir = none := by
  decide

/-- Claim C3: reprioritizing onto a canonical filename already occupied by a
different file in the same directory fails with the collision error and
performs no rename — the operation returns the input filesystem unchanged, so
both the target's file and the occupying file are untouched on disk. -/
theorem c3_reprioritize_collision (fs : FS) (addons disabled : Dir) (modId : FPath)
    (newPriority : Nat) (m : Mod)
    (hfound : (scan_mods fs addons disabled).bind
        (fun mods => mods.find? (fun x => x.id == modId)) = some m)
    (hexists : fs.existsFile ⟨m.path.dir, pakFileNameClamped newPriority⟩ = true)
    (hne : (⟨m.path.dir, pakFileNameClamped newPriority⟩ : FPath) ≠ m.path) :
    set_mod_priority fs addons disabled modId newPriority =
      some (fs, .error (.invalidDeadlockPath (priorityInUseMsg newPriority))) := by
  cases hscan : scan_mods fs addons disabled with
  | none => rw [hscan] at hfound; simp at hfound
  | some mods =>
      rw [hscan] at hfound
      simp at hfound
      simp only [set_mod_priority, hscan, hfound]
      simp [hexists, hne]

/-- Witness for C3: two packages at slots 5 and 7; reprioritizing the slot-5
package to priority 7 collides and leaves the filesystem unchanged. -/
theorem c3_reprioritize_collision_witness :
    (scan_mods fsC3 addonsDir disabledDir).bind
        (fun mods => mods.find?
          (fun x => x.id == ⟨addonsDir, "pak05_dir.vpk".toList⟩)) = some modC3 ∧
      fsC3.existsFile ⟨modC3.path.dir, pakFileNameClamped 7⟩ = true ∧
      (⟨modC3.path.dir, pakFileNameClamped 7⟩ : FPath) ≠ modC3.path ∧
      set_mod_priority fsC3 addonsDir disabledDir ⟨addonsDir, "pak05_dir.vpk".toList⟩ 7 =
        some (fsC3, .error (.invalidDeadlockPath (priorityInUseMsg 7))) :=
  ⟨by decide, by decide, by decide,
    c3_reprioritize_collision fsC3 addonsDir disabledDir
      ⟨addonsDir, "pak05_dir.vpk".toList⟩ 7 modC3 (by decide) (by decide) (by decide)⟩

/-- Claim C10: when the requested priority exceeds 99 the reprioritize
operation does not reject the out-of-range value: it renames the file to the
slot-99 canonical name pak99_dir.vpk (silently clamping), while the returned
record's priority field keeps the unclamped requested value, which therefore
disagrees with the priority encoded in the returned filename. -/
theorem c10_clamped_rename_unclamped_record (fs : FS) (addons disabled : Dir)
    (modId : FPath) (p cont : Nat) (m : Mod)
    (hfound : (scan_mods fs addons disabled).bind
        (fun mods => mods.find? (fun x => x.id == modId)) = some m)
    (hp : 99 < p)
    (hsrc : fs.read m.path = some cont)
    (hfree : fs.existsFile ⟨m.path.dir, pakFileNameClamped p⟩ = false) :
    set_mod_priority fs addons disabled modId p =
      some ((fs.erase m.path).write ⟨m.path.dir, "pak99_dir.vpk".toList⟩ cont,
        .ok { m with priority := p, file_name := "pak99_dir.vpk".toList,
                     path := ⟨m.path.dir, "pak99_dir.vpk".toList⟩ }) ∧
      pakFileNameClamped p = "pak99_dir.vpk".toList ∧
      parse_vpk_priority "pak99_dir.vpk".toList = some (some 99) ∧ p ≠ 99 := by
  have h99 : pakFileNameClamped p = "pak99_dir.vpk".toList := by
    unfold pakFileNameClamped
    have hmin : min p 99 = 99 := by omega
    rw [hmin]
    decide
  refine ⟨?_, h99, by decide, by omega⟩
  rw [← h99]
  cases hscan : scan_mods fs addons disabled with
  | none => rw [hscan] at hfound; simp at hfound
  | some mods =>
      rw [hscan] at hfound
      simp at hfound
      simp only [set_mod_priority, hscan, hfound]
      simp [hfree, FS.rename, hsrc]

/-- Witness for C10: a single slot-5 package reprioritized to 150 is renamed
to pak99_dir.vpk while the returned record reports priority 150. -/
theorem c10_clamped_rename_unclamped_record_witness :
    (scan_mods fsC10 addonsDir disabledDir).bind
        (fun mods => mods.find?
          (fun x => x.id == ⟨addonsDir, "pak05_dir.vpk".toList⟩)) = some modC10 ∧
      99 < 150 ∧
      fsC10.read modC10.path = some 1 ∧
      fsC10.existsFile ⟨modC10.path.dir, pakFileNameClamped 150⟩ = false ∧
      (set_mod_priority fsC10 addonsDir disabledDir ⟨addonsDir, "pak05_dir.vpk".toList⟩ 150 =
        some ((fsC10.erase modC10.path).write ⟨modC10.path.dir, "pak99_dir.vpk".toList⟩ 1,
          .ok { modC10 with priority := 150, file_name := "pak99_dir.vpk".toList,
                            path := ⟨modC10.path.dir, "pak99_dir.vpk".toList⟩ }) ∧
        pakFileNameClamped 150 = "pak99_dir.vpk".toList ∧
        parse_vpk_priority "pak99_dir.vpk".toList = some (some 99) ∧ (150 : Nat) ≠ 99) :=
  ⟨by decide, by decide, by decide, by decide,
    c10_clamped_rename_unclamped_record fsC10 addonsDir disabledDir
      ⟨addonsDir, "pak05_dir.vpk".toList⟩ 150 1 modC10
      (by decide) (by decide) (by decide) (by decide)⟩

/-- Counterexample to claim C2: with the package's disabled directory on a
different device than the addons directory, enabling the package propagates
the raw cross-device rename error — `enable_mod` calls `fs::rename` with no
copy-then-delete fallback — and the filesystem is returned unchanged. -/
theorem c2_enable_crossdevice_counterexample :
    enable_mod fsC2 addonsDir disabledDirDev1 srcC2 =
      some (fsC2, .error (.ioErr .crossDevice)) := by
  rfl

/-- Claim C2 as amended: the copy-then-delete cross-device fallback exists
only in the normalizer's relocation helper `move_with_fallback`, which
relocates a file across devices by copying it to the destination and deleting
the source.  Enable and disable call `fs::rename` directly and propagate a
cross-device failure as an error with no fallback, leaving the filesystem
unchanged.  Reprioritize also calls `fs::rename` directly with no fallback,
but its rename stays inside the package's own directory, so a cross-device
failure can never surface from it. -/
theorem c2_fallback_only_in_move_with_fallback :
    (∀ (fs : FS) (src dst : FPath) (cont : Nat),
        fs.read src = some cont → src.dir.device ≠ dst.dir.device → src ≠ dst →
        ∃ fs', move_with_fallback fs src dst = .ok fs' ∧
          fs'.read dst = some cont ∧ fs'.existsFile src = false) ∧
      (∀ (fs : FS) (addons disabled : Dir) (modId : FPath) (m : Mod) (cont : Nat),
        (scan_mods fs addons disabled).bind
            (fun mods => mods.find? (fun x => x.id == modId)) = some m →
        m.enabled = false → fs.read m.path = some cont →
        m.path.dir.device ≠ addons.device →
        enable_mod fs addons disabled modId = some (fs, .error (.ioErr .crossDevice))) ∧
      (∀ (fs : FS) (addons disabled : Dir) (modId : FPath) (m : Mod) (cont : Nat),
        (scan_mods fs addons disabled).bind
            (fun mods => mods.find? (fun x => x.id == modId)) = some m →
        m.enabled = true → fs.read m.path = some cont →
        m.path.dir.device ≠ disabled.device →
        disable_mod fs addons disabled modId = some (fs, .error (.ioErr .crossDevice))) ∧
      (∀ (fs : FS) (addons disabled : Dir) (modId : FPath) (p : Nat) (fs' : FS),
        set_mod_priority fs addons disabled modId p ≠
          some (fs', .error (.ioErr .crossDevice))) := by
  refine ⟨?_, ?_, ?_, ?_⟩
  · intro fs src dst cont hsrc hdev hne
    have hren : fs.rename src dst = .error .crossDevice := by
      unfold FS.rename
      rw [hsrc]
      simp [hdev]
    have hcopy : fs.copy src dst = .ok (fs.write dst cont) := by
      unfold FS.copy
      rw [hsrc]
    have hex : (fs.write dst cont).existsFile src = true := by
      unfold FS.existsFile
      rw [FS.read_write_ne fs dst src cont hne, hsrc]
      rfl
    have hrem : (fs.write dst cont).removeFile src =
        .ok ((fs.write dst cont).erase src) := by
      unfold FS.removeFile
      rw [hex]
      rfl
    refine ⟨(fs.write dst cont).erase src, ?_, ?_, ?_⟩
    · simp [move_with_fallback, hren, hcopy, hrem]
    · rw [FS.read_erase_ne _ src dst (Ne.symm hne)]
      exact FS.read_write_self fs dst cont
    · unfold FS.existsFile
      rw [FS.read_erase_self]
      rfl
  · intro fs addons disabled modId m cont hfound hen hsrc hdev
    cases hscan : scan_mods fs addons disabled with
    | none =>
        rw [hscan] at hfound
        simp at hfound
    | some mods =>
        rw [hscan] at hfound
        simp at hfound
        have hren : fs.rename m.path ⟨addons, m.file_name⟩ = .error .crossDevice := by
          unfold FS.rename
          rw [hsrc]
          simp [hdev]
        simp [enable_mod, hscan, hfound, hen, hren]
  · intro fs addons disabled modId m cont hfound hen hsrc hdev
    cases hscan : scan_mods fs addons disabled with
    | none =>
        rw [hscan] at hfound
        simp at hfound
    | some mods =>
        rw [hscan] at hfound
        simp at hfound
        have hren : fs.rename m.path ⟨disabled, m.file_name⟩ = .error .crossDevice := by
          unfold FS.rename
          rw [hsrc]
          simp [hdev]
        simp [disable_mod, hscan, hfound, hen, hren]
  · intro fs addons disabled modId p fs' h
    cases hscan : scan_mods fs addons disabled with
    | none => simp [set_mod_priority, hscan] at h
    | some mods =>
        cases hfind : mods.find? (fun x => x.id == modId) with
        | none => simp [set_mod_priority, hscan, hfind] at h
        | some m =>
            simp only [set_mod_priority, hscan, hfind] at h
            split at h
            · simp at h
            · cases hread : fs.read m.path with
              | none => simp [FS.rename, hread] at h
              | some c => simp [FS.rename, hread] at h

/-- Witness for the amended C2: the fallback relocates across devices at the
concrete fixture, enabling the disabled cross-device package fails with the
raw cross-device error, disabling the enabled package with the disabled
directory on another device fails the same way, and reprioritizing never
surfaces a cross-device error. -/
theorem c2_fallback_only_in_move_with_fallback_witness :
    (∃ fs', move_with_fallback fsC2 srcC2 dstC2 = .ok fs' ∧
        fs'.read dstC2 = some 1 ∧ fs'.existsFile srcC2 = false) ∧
      enable_mod fsC2 addonsDir disabledDirDev1 srcC2 =
        some (fsC2, .error (.ioErr .crossDevice)) ∧
      disable_mod fsC2en addonsDir disabledDirDev1 ⟨addonsDir, "pak05_dir.vpk".toList⟩ =
        some (fsC2en, .error (.ioErr .crossDevice)) ∧
      set_mod_priority fsC2 addonsDir disabledDirDev1 srcC2 7 ≠
        some (fsC2, .error (.ioErr .crossDevice)) :=
  ⟨c2_fallback_only_in_move_with_fallback.1 fsC2 srcC2 dstC2 1
      (by decide) (by decide) (by decide),
    c2_fallback_only_in_move_with_fallback.2.1 fsC2 addonsDir disabledDirDev1 srcC2 modC2 1
      (by decide) (by decide) (by decide) (by decide),
    c2_fallback_only_in_move_with_fallback.2.2.1 fsC2en addonsDir disabledDirDev1
      ⟨addonsDir, "pak05_dir.vpk".toList⟩ modC2en 1
      (by decide) (by decide) (by decide) (by decide),
    c2_fallback_only_in_move_with_fallback.2.2.2 fsC2 addonsDir disabledDirDev1 srcC2 7 fsC2⟩

/-- Claim C7: deleting a package removes its primary file, removes every
sibling file of the same directory whose name starts with the package's base
name (the filename with `_dir.vpk` trimmed) and ends with `.vpk`, and removes
the metadata entry keyed by the package's filename. -/
theorem c7_delete_removes_files_and_metadata (fs : FS) (meta : ModMetadataMap)
    (addons disabled : Dir) (modId : FPath) (m : Mod) (cont : Nat)
    (hfound : (scan_mods fs addons disabled).bind
        (fun mods => mods.find? (fun x => x.id == modId)) = some m)
    (hsrc : fs.read m.path = some cont) :
    ∃ fs', delete_mod_cmd fs meta addons disabled modId =
        some (fs', remove_metadata_entry meta m.file_name, .ok ()) ∧
      fs'.existsFile m.path = false ∧
      (∀ q : FPath, q.dir = m.path.dir →
        (trimEndMatches m.file_name "_dir.vpk".toList).isPrefixOf q.name = true →
        ".vpk".toList.isSuffixOf q.name = true → fs'.existsFile q = false) ∧
      metaGet (remove_metadata_entry meta m.file_name) m.file_name = none := by
  cases hscan : scan_mods fs addons disabled with
  | none => rw [hscan] at hfound; simp at hfound
  | some mods =>
      rw [hscan] at hfound
      simp at hfound
      have hex : fs.existsFile m.path = true := by
        unfold FS.existsFile
        rw [hsrc]
        rfl
      have hrem : fs.removeFile m.path = .ok (fs.erase m.path) := by
        unfold FS.removeFile
        rw [hex]
        rfl
      refine ⟨removeMatchingSiblings (fs.erase m.path) m.path.dir
          (trimEndMatches m.file_name "_dir.vpk".toList), ?_, ?_, ?_,
          metaGet_remove_self m.file_name meta⟩
      · simp [delete_mod_cmd, delete_mod, hscan, hfound, hrem]
      · unfold FS.existsFile FS.read removeMatchingSiblings
        rw [lookupPath_filter_none _ m.path (fs.erase m.path).files
          (FS.read_erase_self fs m.path)]
        rfl
      · intro q hqdir hqpre hqsuf
        have h1 : trimEndMatches m.file_name "_dir.vpk".toList <+: q.name := by
          simpa using hqpre
        have h2 : ".vpk".toList <:+ q.name := by
          simpa using hqsuf
        unfold FS.existsFile FS.read removeMatchingSiblings
        rw [lookupPath_filter_drop _ q (fun c => by
          simp [hqdir]
          exact ⟨h1, h2⟩)]
        rfl

/-- Witness for C7 at the concrete fixture: deleting the slot-5 package with
its multi-part sibling. -/
theorem c7_delete_removes_files_and_metadata_witness :
    (scan_mods fsC7 addonsDir disabledDir).bind
        (fun mods => mods.find?
          (fun x => x.id == ⟨addonsDir, "pak05_dir.vpk".toList⟩)) = some modC7 ∧
      fsC7.read modC7.path = some 1 ∧
      (∃ fs', delete_mod_cmd fsC7 metaC7 addonsDir disabledDir
            ⟨addonsDir, "pak05_dir.vpk".toList⟩ =
          some (fs', remove_metadata_entry metaC7 modC7.file_name, .ok ()) ∧
        fs'.existsFile modC7.path = false ∧
        (∀ q : FPath, q.dir = modC7.path.dir →
          (trimEndMatches modC7.file_name "_dir.vpk".toList).isPrefixOf q.name = true →
          ".vpk".toList.isSuffixOf q.name = true → fs'.existsFile q = false) ∧
        metaGet (remove_metadata_entry metaC7 modC7.file_name) modC7.file_name = none) :=
  ⟨by decide, by decide,
    c7_delete_removes_files_and_metadata fsC7 metaC7 addonsDir disabledDir
      ⟨addonsDir, "pak05_dir.vpk".toList⟩ modC7 1 (by decide) (by decide)⟩

/-- Claim C8: a zip container holding one package entry at the nested path
sub/dir/pak05_dir.vpk and one non-package entry extracts to exactly one path,
the entry's base name directly in the destination directory; the extracted
file holds the entry's content and the non-package entry is not
materialized. -/
theorem c8_zip_flatten_and_filter :
    extract_zip ⟨[]⟩
        [⟨"sub/dir/pak05_dir.vpk".toList, false, 7⟩, ⟨"readme.txt".toList, false, 8⟩]
        addonsDir =
      some ((FS.mk []).write ⟨addonsDir, "pak05_dir.vpk".toList⟩ 7,
        [⟨addonsDir, "pak05_dir.vpk".toList⟩]) ∧
      ((FS.mk []).write ⟨addonsDir, "pak05_dir.vpk".toList⟩ 7).read
          ⟨addonsDir, "pak05_dir.vpk".toList⟩ = some 7 ∧
      ((FS.mk []).write ⟨addonsDir, "pak05_dir.vpk".toList⟩ 7).existsFile
          ⟨addonsDir, "readme.txt".toList⟩ = false := by
  refine ⟨rfl, rfl, rfl⟩

/-- Helper: writing preserves the presence of every file. -/
theorem read_isSome_write (fs : FS) (q p : FPath) (c : Nat)
    (h : (fs.read q).isSome = true) : ((fs.write p c).read q).isSome = true := by
  by_cases hq : q = p
  · subst hq
    rw [FS.read_write_self]
    rfl
  · rw [FS.read_write_ne fs p q c hq]
    exact h

/-- Helper: a key bound somewhere in the list is found by the lookup. -/
theorem lookupPath_isSome_of_mem (p : FPath) :
    ∀ l : List (FPath × Nat), (∃ c, (p, c) ∈ l) → (lookupPath l p).isSome = true := by
  intro l
  induction l with
  | nil =>
      rintro ⟨c, hc⟩
      cases hc
  | cons e rest ih =>
      rintro ⟨c, hc⟩
      by_cases hip : e.1 = p
      · simp [lookupPath, hip]
      · rcases List.mem_cons.mp hc with heq | hmem
        · exact absurd (by rw [← heq]) hip
        · simpa [lookupPath, hip] using ih ⟨c, hmem⟩

/-- Helper: every file listed in a directory is present. -/
theorem filesIn_read_isSome (fs : FS) (d : Dir) (p : FPath) (h : p ∈ fs.filesIn d) :
    (fs.read p).isSome = true := by
  unfold FS.filesIn at h
  obtain ⟨e, he, heq⟩ := List.mem_map.mp h
  have he2 : e ∈ fs.files := List.mem_of_mem_filter he
  subst heq
  exact lookupPath_isSome_of_mem e.1 fs.files ⟨e.2, he2⟩

/-- Helper: removing a whole directory removes its files. -/
theorem removeDirAll_self (fs : FS) (d : Dir) (nm : List Char) :
    (removeDirAll fs d).existsFile ⟨d, nm⟩ = false := by
  unfold FS.existsFile FS.read removeDirAll
  rw [lookupPath_filter_drop _ _ (fun c => by simp)]
  rfl

/-- Helper: removing a whole directory leaves other directories unchanged. -/
theorem removeDirAll_read_ne (fs : FS) (d : Dir) (q : FPath) (h : q.dir ≠ d) :
    (removeDirAll fs d).read q = fs.read q :=
  lookupPath_filter_keep _ q (fun c => by simp [h]) fs.files

/-- Helper: every collected package file is present and has a base name. -/
theorem collect_vpks_precondition (fs : FS) (root : Dir) :
    ∀ p ∈ collect_vpks fs root,
      (fs.read p).isSome = true ∧ (lastComponent p.name).isSome = true := by
  intro p hp
  unfold collect_vpks at hp
  obtain ⟨hmem, hext⟩ := List.mem_filter.mp hp
  constructor
  · exact filesIn_read_isSome fs root p hmem
  · have hx : extensionOf p.name = some "vpk".toList := by simpa using hext
    unfold extensionOf at hx
    cases hl : lastComponent p.name with
    | none =>
        rw [hl] at hx
        simp at hx
    | some base => rfl

/-- Helper: the copy loop only adds files, so presence is preserved. -/
theorem copy_vpks_preserves (destDir : Dir) :
    ∀ (l : List FPath) (fs : FS) (q : FPath),
      (fs.read q).isSome = true →
        (((copy_vpks_to_dest fs l destDir).1).read q).isSome = true := by
  intro l
  induction l with
  | nil =>
      intro fs q h
      exact h
  | cons p rest ih =>
      intro fs q h
      cases hlc : lastComponent p.name with
      | none => simpa [copy_vpks_to_dest, hlc] using h
      | some base =>
          cases hread : fs.read p with
          | none => simpa [copy_vpks_to_dest, hlc, FS.copy, hread] using h
          | some c =>
              have hcopy : fs.copy p ⟨destDir, base⟩ = .ok (fs.write ⟨destDir, base⟩ c) := by
                unfold FS.copy
                rw [hread]
              have hrecq := ih (fs.write ⟨destDir, base⟩ c) q
                (read_isSome_write fs q ⟨destDir, base⟩ c h)
              simp only [copy_vpks_to_dest, hlc, hcopy]
              cases hrec : copy_vpks_to_dest (fs.write ⟨destDir, base⟩ c) rest destDir with
              | mk fs2 r =>
                  rw [hrec] at hrecq
                  cases r with
                  | error e => simpa using hrecq
                  | ok copied => simpa using hrecq

/-- Helper: the copy loop succeeds whenever every listed file is present and
has a base name. -/
theorem copy_vpks_ok (destDir : Dir) :
    ∀ (l : List FPath) (fs : FS),
      (∀ p ∈ l, (fs.read p).isSome = true ∧ (lastComponent p.name).isSome = true) →
      ∃ fs2 copied, copy_vpks_to_dest fs l destDir = (fs2, .ok copied) := by
  intro l
  induction l with
  | nil =>
      intro fs _
      exact ⟨fs, [], rfl⟩
  | cons p rest ih =>
      intro fs h
      obtain ⟨hr, hlc⟩ := h p (List.mem_cons_self p rest)
      obtain ⟨c, hc⟩ : ∃ c, fs.read p = some c := by
        cases hread : fs.read p with
        | none =>
            rw [hread] at hr
            simp at hr
        | some c => exact ⟨c, rfl⟩
      obtain ⟨base, hbase⟩ : ∃ b, lastComponent p.name = some b := by
        cases hb : lastComponent p.name with
        | none =>
            rw [hb] at hlc
            simp at hlc
        | some b => exact ⟨b, rfl⟩
      have hcopy : fs.copy p ⟨destDir, base⟩ = .ok (fs.write ⟨destDir, base⟩ c) := by
        unfold FS.copy
        rw [hc]
      have hrest : ∀ q ∈ rest, ((fs.write ⟨destDir, base⟩ c).read q).isSome = true ∧
          (lastComponent q.name).isSome = true := by
        intro q hq
        obtain ⟨h1, h2⟩ := h q (List.mem_cons_of_mem p hq)
        exact ⟨read_isSome_write fs q ⟨destDir, base⟩ c h1, h2⟩
      obtain ⟨fs2, copied, hrec⟩ := ih (fs.write ⟨destDir, base⟩ c) hrest
      refine ⟨fs2, ⟨destDir, base⟩ :: copied, ?_⟩
      simp [copy_vpks_to_dest, hbase, hcopy, hrec]

/-- Helper: every file returned by a successful copy loop lies in the
destination directory and is present afterwards. -/
theorem copy_vpks_copied_exist (destDir : Dir) :
    ∀ (l : List FPath) (fs fs2 : FS) (copied : List FPath),
      copy_vpks_to_dest fs l destDir = (fs2, .ok copied) →
      ∀ q ∈ copied, q.dir = destDir ∧ fs2.existsFile q = true := by
  intro l
  induction l with
  | nil =>
      intro fs fs2 copied h q hq
      simp [copy_vpks_to_dest] at h
      obtain ⟨rfl, rfl⟩ := h
      cases hq
  | cons p rest ih =>
      intro fs fs2 copied h q hq
      cases hlc : lastComponent p.name with
      | none => simp [copy_vpks_to_dest, hlc] at h
      | some base =>
          cases hread : fs.read p with
          | none => simp [copy_vpks_to_dest, hlc, FS.copy, hread] at h
          | some c =>
              have hcopy : fs.copy p ⟨destDir, base⟩ = .ok (fs.write ⟨destDir, base⟩ c) := by
                unfold FS.copy
                rw [hread]
              simp only [copy_vpks_to_dest, hlc, hcopy] at h
              cases hrec : copy_vpks_to_dest (fs.write ⟨destDir, base⟩ c) rest destDir with
              | mk fsr r =>
                  rw [hrec] at h
                  cases r with
                  | error e => simp at h
                  | ok copied2 =>
                      simp at h
                      obtain ⟨rfl, rfl⟩ := h
                      rcases List.mem_cons.mp hq with rfl | hmem
                      · refine ⟨rfl, ?_⟩
                        have hw : ((fs.write ⟨destDir, base⟩ c).read
                            ⟨destDir, base⟩).isSome = true := by
                          rw [FS.read_write_self]
                          rfl
                        have hpres := copy_vpks_preserves destDir rest
                          (fs.write ⟨destDir, base⟩ c) ⟨destDir, base⟩ hw
                        rw [hrec] at hpres
                        simpa [FS.existsFile] using hpres
                      · exact ih _ _ _ hrec q hmem

/-- Helper: full behaviour of the shared external-tool loop: every attempt is
one of the listed tools in order, the loop fails exactly when every tool
fails, the scratch directory never survives, and successfully copied files
live in the destination directory. -/
theorem tryTools_spec (env : ToolEnv) (temp destDir : Dir) (failMsg : List Char)
    (hdir : temp ≠ destDir) :
    ∀ (tools : List (List Char)) (fs : FS),
      (∀ s ∈ (tryExternalTools env temp destDir failMsg fs tools).1,
          ∃ t, s = ExtractStep.externalTool t ∧ t ∈ tools) ∧
        ((∃ e, (tryExternalTools env temp destDir failMsg fs tools).2.2 = .error e) ↔
          ∀ t ∈ tools, env.toolResult t = none) ∧
        (∀ nm, ((tryExternalTools env temp destDir failMsg fs tools).2.1).existsFile
            ⟨temp, nm⟩ = false) ∧
        (∀ copied, (tryExternalTools env temp destDir failMsg fs tools).2.2 = .ok copied →
          ∀ q ∈ copied, q.dir = destDir ∧
            ((tryExternalTools env temp destDir failMsg fs tools).2.1).existsFile
              q = true) := by
  intro tools
  induction tools with
  | nil =>
      intro fs
      refine ⟨?_, ?_, ?_, ?_⟩
      · intro s hs
        cases hs
      · constructor
        · intro _ t ht
          cases ht
        · intro _
          exact ⟨.settings failMsg, rfl⟩
      · intro nm
        exact removeDirAll_self fs temp nm
      · intro copied h
        cases h
  | cons t rest ih =>
      intro fs
      cases htool : env.toolResult t with
      | some entries =>
          obtain ⟨fs2, copied, hc⟩ := copy_vpks_ok destDir
            (collect_vpks (writeToolEntries temp fs entries) temp)
            (writeToolEntries temp fs entries)
            (collect_vpks_precondition (writeToolEntries temp fs entries) temp)
          refine ⟨?_, ?_, ?_, ?_⟩
          · intro s hs
            simp only [tryExternalTools, htool, hc] at hs
            simp at hs
            exact ⟨t, hs, List.mem_cons_self t rest⟩
          · constructor
            · rintro ⟨e, he⟩
              simp only [tryExternalTools, htool, hc] at he
              cases he
            · intro hall
              exact absurd (hall t (List.mem_cons_self t rest)) (by simp [htool])
          · intro nm
            simp only [tryExternalTools, htool, hc]
            exact removeDirAll_self fs2 temp nm
          · intro copied2 h2 q hq
            simp only [tryExternalTools, htool, hc] at h2
            have hcopied : copied2 = copied := by
              have := h2
              simp at this
              exact this.symm
            subst hcopied
            obtain ⟨hqdir, hqex⟩ := copy_vpks_copied_exist destDir _ _ _ _ hc q hq
            refine ⟨hqdir, ?_⟩
            simp only [tryExternalTools, htool, hc]
            have : (removeDirAll fs2 temp).read q = fs2.read q := by
              apply removeDirAll_read_ne
              rw [hqdir]
              exact Ne.symm hdir
            unfold FS.existsFile
            rw [this]
            unfold FS.existsFile at hqex
            exact hqex
      | none =>
          obtain ⟨ih1, ih2, ih3, ih4⟩ := ih fs
          refine ⟨?_, ?_, ?_, ?_⟩
          · intro s hs
            simp only [tryExternalTools, htool] at hs
            rcases List.mem_cons.mp hs with rfl | hmem
            · exact ⟨t, rfl, List.mem_cons_self t rest⟩
            · obtain ⟨t2, ht2, hmem2⟩ := ih1 s hmem
              exact ⟨t2, ht2, List.mem_cons_of_mem t hmem2⟩
          · simp only [tryExternalTools, htool]
            constructor
            · intro he t2 ht2
              rcases List.mem_cons.mp ht2 with rfl | hmem
              · exact htool
              · exact ih2.mp he t2 hmem
            · intro hall
              exact ih2.mpr (fun t2 ht2 => hall t2 (List.mem_cons_of_mem t ht2))
          · intro nm
            simp only [tryExternalTools, htool]
            exact ih3 nm
          · intro copied h2 q hq
            simp only [tryExternalTools, htool] at h2 ⊢
            exact ih4 copied h2 q hq

/-- Counterexample to claim C6: rar extraction never attempts primary
in-process decompression.  With an environment whose primary decompression
would succeed but whose external tools all fail, `extract_rar` runs the three
external tools (its first step is not the primary decompression) and fails —
although the claim says extraction first attempts primary decompression and
fails only when the primary and every tool have failed. -/
theorem c6_rar_no_primary_counterexample :
    envC6.primaryOk = true ∧
      (extract_rar envC6 ⟨[]⟩ addonsDir tempDirC6).steps =
        [.externalTool "7z".toList, .externalTool "7za".toList,
          .externalTool "unrar".toList] ∧
      (extract_rar envC6 ⟨[]⟩ addonsDir tempDirC6).result =
        .error (.settings rarFailMsg) :=
  ⟨rfl, rfl, rfl⟩

/-- Claim C6 as amended: for the 7z format, primary in-process decompression
is attempted first and, when it succeeds, no external tool is consulted; only
on its failure are the external tools 7z then 7za tried in order, the
collected package files copied into the destination, the scratch directory
removed, and extraction fails exactly when every tool has failed.  For the
rar format there is no primary in-process decompression at all: the tools 7z,
7za, unrar are tried in order immediately, with the same scratch-directory
handling, and extraction fails exactly when all three fail. -/
theorem c6_extract_fallback_chains (env : ToolEnv) (fs : FS) (destDir tempDir : Dir)
    (hdir : tempDir ≠ destDir) :
    (env.primaryOk = true →
        (extract_7z env fs destDir tempDir).steps = [.primaryDecompress] ∧
          ∃ files, (extract_7z env fs destDir tempDir).result = .ok files) ∧
      (env.primaryOk = false →
        ((extract_7z env fs destDir tempDir).steps.head? = some .primaryDecompress ∧
            ∀ s ∈ (extract_7z env fs destDir tempDir).steps.tail,
              ∃ t, s = ExtractStep.externalTool t ∧ t ∈ ["7z".toList, "7za".toList]) ∧
          ((∃ e, (extract_7z env fs destDir tempDir).result = .error e) ↔
            env.toolResult "7z".toList = none ∧ env.toolResult "7za".toList = none) ∧
          (∀ nm, ((extract_7z env fs destDir tempDir).fs).existsFile
            ⟨tempDir, nm⟩ = false)) ∧
      ExtractStep.primaryDecompress ∉ (extract_rar env fs destDir tempDir).steps ∧
      ((∃ e, (extract_rar env fs destDir tempDir).result = .error e) ↔
        env.toolResult "7z".toList = none ∧ env.toolResult "7za".toList = none ∧
          env.toolResult "unrar".toList = none) ∧
      (∀ nm, ((extract_rar env fs destDir tempDir).fs).existsFile ⟨tempDir, nm⟩ = false) ∧
      (∀ copied, (extract_rar env fs destDir tempDir).result = .ok copied →
        ∀ q ∈ copied, q.dir = destDir ∧
          ((extract_rar env fs destDir tempDir).fs).existsFile q = true) := by
  obtain ⟨h7a, h7b, h7c, h7d⟩ := tryTools_spec env tempDir destDir sevenZFailMsg hdir
    ["7z".toList, "7za".toList] fs
  obtain ⟨hra, hrb, hrc, hrd⟩ := tryTools_spec env tempDir destDir rarFailMsg hdir
    ["7z".toList, "7za".toList, "unrar".toList] fs
  refine ⟨?_, ?_, ?_, ?_, ?_, ?_⟩
  · intro hp
    constructor
    · simp [extract_7z, hp]
    · exact ⟨collectDestVpks (write7zEntries destDir fs env.primaryEntries) destDir,
        by simp [extract_7z, hp]⟩
  · intro hp
    refine ⟨⟨?_, ?_⟩, ?_, ?_⟩
    · simp [extract_7z, hp]
    · intro s hs
      simp only [extract_7z, hp] at hs
      simp at hs
      exact h7a s hs
    · have hres : (extract_7z env fs destDir tempDir).result =
          (tryExternalTools env tempDir destDir sevenZFailMsg fs
            ["7z".toList, "7za".toList]).2.2 := by
        simp [extract_7z, hp]
      rw [hres]
      rw [h7b]
      simp [List.forall_mem_cons]
    · intro nm
      have hfs : (extract_7z env fs destDir tempDir).fs =
          (tryExternalTools env tempDir destDir sevenZFailMsg fs
            ["7z".toList, "7za".toList]).2.1 := by
        simp [extract_7z, hp]
      rw [hfs]
      exact h7c nm
  · intro hmem
    have : (extract_rar env fs destDir tempDir).steps =
        (tryExternalTools env tempDir destDir rarFailMsg fs
          ["7z".toList, "7za".toList, "unrar".toList]).1 := rfl
    rw [this] at hmem
    obtain ⟨t, ht, _⟩ := hra _ hmem
    cases ht
  · have hres : (extract_rar env fs destDir tempDir).result =
        (tryExternalTools env tempDir destDir rarFailMsg fs
          ["7z".toList, "7za".toList, "unrar".toList]).2.2 := rfl
    rw [hres, hrb]
    simp [List.forall_mem_cons]
  · intro nm
    exact hrc nm
  · intro copied hok q hq
    exact hrd copied hok q hq

/-- Witness for the amended C6 at the concrete environment `envC6b` (primary
decompression fails, the first tool succeeds). -/
theorem c6_extract_fallback_chains_witness :
    tempDirC6 ≠ addonsDir ∧
      ((envC6b.primaryOk = true →
          (extract_7z envC6b ⟨[]⟩ addonsDir tempDirC6).steps = [.primaryDecompress] ∧
            ∃ files, (extract_7z envC6b ⟨[]⟩ addonsDir tempDirC6).result = .ok files) ∧
        (envC6b.primaryOk = false →
          ((extract_7z envC6b ⟨[]⟩ addonsDir tempDirC6).steps.head? =
              some .primaryDecompress ∧
              ∀ s ∈ (extract_7z envC6b ⟨[]⟩ addonsDir tempDirC6).steps.tail,
                ∃ t, s = ExtractStep.externalTool t ∧ t ∈ ["7z".toList, "7za".toList]) ∧
            ((∃ e, (extract_7z envC6b ⟨[]⟩ addonsDir tempDirC6).result = .error e) ↔
              envC6b.toolResult "7z".toList = none ∧
                envC6b.toolResult "7za".toList = none) ∧
            (∀ nm, ((extract_7z envC6b ⟨[]⟩ addonsDir tempDirC6).fs).existsFile
              ⟨tempDirC6, nm⟩ = false)) ∧
        ExtractStep.primaryDecompress ∉ (extract_rar envC6b ⟨[]⟩ addonsDir tempDirC6).steps ∧
        ((∃ e, (extract_rar envC6b ⟨[]⟩ addonsDir tempDirC6).result = .error e) ↔
          envC6b.toolResult "7z".toList = none ∧ envC6b.toolResult "7za".toList = none ∧
            envC6b.toolResult "unrar".toList = none) ∧
        (∀ nm, ((extract_rar envC6b ⟨[]⟩ addonsDir tempDirC6).fs).existsFile
          ⟨tempDirC6, nm⟩ = false) ∧
        (∀ copied, (extract_rar envC6b ⟨[]⟩ addonsDir tempDirC6).result = .ok copied →
          ∀ q ∈ copied, q.dir = addonsDir ∧
            ((extract_rar envC6b ⟨[]⟩ addonsDir tempDirC6).fs).existsFile q = true)) :=
  ⟨by decide, c6_extract_fallback_chains envC6b ⟨[]⟩ addonsDir tempDirC6 (by decide)⟩

/-- Helper: the preset step never fails on a file that exists in its
directory, and preserves the existence of every other file. -/
theorem presetStep_total (d : Dir) (st : CleanupSt) (name : List Char)
    (hex : st.fs.existsFile ⟨d, name⟩ = true) :
    ∃ st', presetStep d st name = .ok st' ∧
      ∀ q : FPath, q ≠ ⟨d, name⟩ → st.fs.existsFile q = true →
        st'.fs.existsFile q = true := by
  cases hmp : is_mina_preset name (some st.metaMap) with
  | false => exact ⟨st, by simp [presetStep, hmp], fun q _ h => h⟩
  | true =>
      cases hpk : is_pak_file name with
      | true => exact ⟨st, by simp [presetStep, hmp, hpk], fun q _ h => h⟩
      | false =>
          cases htgt : presetTarget st.used with
          | none =>
              exact ⟨{ st with skippedMinaPresets := st.skippedMinaPresets + 1 },
                by simp [presetStep, hmp, hpk, htgt], fun q _ h => h⟩
          | some n =>
              cases hdest : st.fs.existsFile ⟨d, pakFileName n⟩ with
              | true =>
                  exact ⟨{ st with skippedMinaPresets := st.skippedMinaPresets + 1 },
                    by simp [presetStep, hmp, hpk, htgt, hdest], fun q _ h => h⟩
              | false =>
                  obtain ⟨cont, hc⟩ : ∃ c, st.fs.read ⟨d, name⟩ = some c := by
                    unfold FS.existsFile at hex
                    cases hr : st.fs.read ⟨d, name⟩ with
                    | none =>
                        rw [hr] at hex
                        simp at hex
                    | some c => exact ⟨c, rfl⟩
                  have hmwf : move_with_fallback st.fs ⟨d, name⟩ ⟨d, pakFileName n⟩ =
                      .ok ((st.fs.erase ⟨d, name⟩).write ⟨d, pakFileName n⟩ cont) := by
                    unfold move_with_fallback FS.rename
                    rw [hc]
                    simp
                  refine ⟨{ st with
                      fs := (st.fs.erase ⟨d, name⟩).write ⟨d, pakFileName n⟩ cont,
                      metaMap := rename_metadata_key_inline st.metaMap name (pakFileName n),
                      used := insert n st.used,
                      renamedMinaPresets := st.renamedMinaPresets + 1 },
                    by simp [presetStep, hmp, hpk, htgt, hdest, hmwf], ?_⟩
                  intro q hq hqex
                  have hqd : q ≠ ⟨d, pakFileName n⟩ := by
                    intro h
                    rw [h, hdest] at hqex
                    cases hqex
                  unfold FS.existsFile
                  rw [FS.read_write_ne _ _ _ _ hqd, FS.read_erase_ne _ _ _ hq]
                  exact hqex

/-- Helper: the preset phase runs to completion on any duplicate-free
snapshot of existing files. -/
theorem runPhase_preset_total (d : Dir) :
    ∀ (names : List (List Char)) (st : CleanupSt), names.Nodup →
      (∀ nm ∈ names, st.fs.existsFile ⟨d, nm⟩ = true) →
      ∃ st', runPhase (presetStep d) st names = .ok st' := by
  intro names
  induction names with
  | nil =>
      intro st _ _
      exact ⟨st, rfl⟩
  | cons nm rest ih =>
      intro st hnd hex
      obtain ⟨st1, hstep, hpres⟩ :=
        presetStep_total d st nm (hex nm (List.mem_cons_self nm rest))
      have hnm : nm ∉ rest := (List.nodup_cons.mp hnd).1
      have hnd2 : rest.Nodup := (List.nodup_cons.mp hnd).2
      have hex2 : ∀ nm2 ∈ rest, st1.fs.existsFile ⟨d, nm2⟩ = true := by
        intro nm2 h2
        apply hpres
        · intro heq
          have h3 : nm2 = nm := by simpa using heq
          exact absurd (h3 ▸ h2) hnm
        · exact hex nm2 (List.mem_cons_of_mem nm h2)
      obtain ⟨st2, hrec⟩ := ih st1 hnd2 hex2
      exact ⟨st2, by simp [runPhase, hstep, hrec]⟩

/-- Claim C9: the normalizer's variant-file phase never aborts on a slot
collision.  For a non-conforming variant file: when the slot search finds no
free slot, or when the destination filename already exists, the step only
increments the skipped counter; otherwise the file is renamed to the returned
slot — the lowest slot not in the used set at or above the preferred floor
20, wrapping to the lowest free slot below 20 when 20..99 is exhausted — and
the slot is inserted into the used set in place, so later files of the same
sweep see earlier renames; after any successful step the sweep continues on
the remaining files; and on a duplicate-free snapshot of existing files the
phase always runs to completion, returning its counts. -/
theorem c9_preset_phase_non_fatal (d : Dir) (st : CleanupSt) (name : List Char) :
    (is_mina_preset name (some st.metaMap) = true → is_pak_file name = false →
        presetTarget st.used = none →
        presetStep d st name =
          .ok { st with skippedMinaPresets := st.skippedMinaPresets + 1 }) ∧
      (∀ n, is_mina_preset name (some st.metaMap) = true → is_pak_file name = false →
        presetTarget st.used = some n →
        st.fs.existsFile ⟨d, pakFileName n⟩ = true →
        presetStep d st name =
          .ok { st with skippedMinaPresets := st.skippedMinaPresets + 1 }) ∧
      (∀ n cont, is_mina_preset name (some st.metaMap) = true → is_pak_file name = false →
        presetTarget st.used = some n →
        st.fs.existsFile ⟨d, pakFileName n⟩ = false →
        st.fs.read ⟨d, name⟩ = some cont →
        presetStep d st name =
          .ok { st with
            fs := (st.fs.erase ⟨d, name⟩).write ⟨d, pakFileName n⟩ cont,
            metaMap := rename_metadata_key_inline st.metaMap name (pakFileName n),
            used := insert n st.used,
            renamedMinaPresets := st.renamedMinaPresets + 1 }) ∧
      (∀ n, presetTarget st.used = some n →
        n ∉ st.used ∧
          ((20 ≤ n ∧ n ≤ 99 ∧ ∀ m, 20 ≤ m → m < n → m ∈ st.used) ∨
            (n < 20 ∧ (∀ m, 20 ≤ m → m ≤ 99 → m ∈ st.used) ∧
              ∀ m, m < n → m ∈ st.used))) ∧
      (∀ st' rest, presetStep d st name = .ok st' →
        runPhase (presetStep d) st (name :: rest) = runPhase (presetStep d) st' rest) ∧
      (∀ names, names.Nodup → (∀ nm ∈ names, st.fs.existsFile ⟨d, nm⟩ = true) →
        ∃ st', runPhase (presetStep d) st names = .ok st') := by
  refine ⟨?_, ?_, ?_, ?_, ?_, ?_⟩
  · intro hmp hpk htgt
    simp [presetStep, hmp, hpk, htgt]
  · intro n hmp hpk htgt hdest
    simp [presetStep, hmp, hpk, htgt, hdest]
  · intro n cont hmp hpk htgt hdest hc
    have hmwf : move_with_fallback st.fs ⟨d, name⟩ ⟨d, pakFileName n⟩ =
        .ok ((st.fs.erase ⟨d, name⟩).write ⟨d, pakFileName n⟩ cont) := by
      unfold move_with_fallback FS.rename
      rw [hc]
      simp
    simp [presetStep, hmp, hpk, htgt, hdest, hmwf]
  · intro n htgt
    unfold presetTarget at htgt
    cases h1 : (List.range' 20 80).find? (fun k => decide (k ∉ st.used)) with
    | some m =>
        rw [h1] at htgt
        have hmn : m = n := by simpa using htgt
        obtain ⟨ha, hb, hc, hd⟩ := findSomeFirst 80 20 m h1
        rw [← hmn]
        simp at hc
        refine ⟨hc, Or.inl ⟨ha, by omega, ?_⟩⟩
        intro j hj1 hj2
        have := hd j hj1 hj2
        simpa using this
    | none =>
        rw [h1] at htgt
        rw [List.range_eq_range'] at htgt
        have hmn := htgt
        obtain ⟨ha, hb, hc, hd⟩ := findSomeFirst 20 0 n hmn
        simp at hc
        have hall : ∀ m, 20 ≤ m → m ≤ 99 → m ∈ st.used := by
          intro m hm1 hm2
          have hmem : m ∈ List.range' 20 80 := by
            rw [List.mem_range'_1]
            omega
          have := (findNoneIff _ _).mp h1 m hmem
          simpa using this
        refine ⟨hc, Or.inr ⟨by omega, hall, ?_⟩⟩
        intro j hj
        have := hd j (Nat.zero_le j) hj
        simpa using this
  · intro st' rest h
    simp [runPhase, h]
  · intro names hnd hex
    exact runPhase_preset_total d names st hnd hex

/-- Witness for C9: the preset phase of the fixture (slots 20 and 21 used,
three non-conforming variant files) completes without error. -/
theorem c9_preset_phase_non_fatal_witness :
    namesC9.Nodup ∧
      (∀ nm ∈ namesC9, stC9.fs.existsFile ⟨addonsDir, nm⟩ = true) ∧
      ∃ st', runPhase (presetStep addonsDir) stC9 namesC9 = .ok st' :=
  ⟨by decide, by decide,
    (c9_preset_phase_non_fatal addonsDir stC9 "clothing_preset_a.vpk".toList).2.2.2.2.2
      namesC9 (by decide) (by decide)⟩

end Grimoire
